import Mathlib

/-!
Verification development for the signature ingestion and enrichment pipeline
of `src/validator/analyze_alpha_swaps_v2.py` (a Node.js script).

The script is shallowly embedded: its module-level mutable state becomes the
`St` structure, JS `Map`s become insertion-ordered association lists with the
same `get`/`set`/`delete` semantics, machine integers become `Nat`/`Int`
(with explicit `% 2 ^ 32` inside SHA-256), `Math.random()` draws and wall
clock readings become explicit parameters, and the network becomes an oracle
`Nat → NetResult` giving the outcome of each HTTP attempt.  Fallible parsing
returns `Option`.  Filesystem effects of the snapshot writer are embedded as
the list of file operations the code performs.
-/

set_option maxHeartbeats 2000000
set_option maxRecDepth 4000

namespace Yogurt

/-! ## JS-flavoured primitive helpers -/

/-- `clampInt(n, lo, hi)` from the source: `Math.max(lo, Math.min(hi, n))`. -/
def clampInt (n lo hi : Nat) : Nat := max lo (min hi n)

/-- `x || null` applied to a JS string: the empty string is falsy. -/
def jsStrOrNull : Option String → Option String
  | none => none
  | some s => if s = "" then none else some s

/-- `x || null` applied to a JS number: `0` is falsy. -/
def jsNumOrNull : Option Nat → Option Nat
  | none => none
  | some n => if n = 0 then none else some n

/-- Does `hay` start with `needle`? -/
def startsWithChars : List Char → List Char → Bool
  | [], _ => true
  | _ :: _, [] => false
  | a :: as, b :: bs => a = b && startsWithChars as bs

/-- Does `hay` contain `needle` as a contiguous run? -/
def containsChars (needle : List Char) : List Char → Bool
  | [] => startsWithChars needle []
  | b :: bs => startsWithChars needle (b :: bs) || containsChars needle bs

/-- `s.includes(sub)` for strings. -/
def jsIncludes (s sub : String) : Bool := containsChars sub.toList s.toList

/-- Decimal digit accumulator used by the `BigInt(string)` model. -/
def decDigitsGo : Nat → List Char → Option Nat
  | acc, [] => some acc
  | acc, c :: cs => if c.isDigit then decDigitsGo (acc * 10 + (c.toNat - 48)) cs else none

/-- JS whitespace test for `BigInt`'s argument trimming. -/
def isJsWs (c : Char) : Bool :=
  c = ' ' ∨ c = Char.ofNat 9 ∨ c = Char.ofNat 10 ∨ c = Char.ofNat 11 ∨
  c = Char.ofNat 12 ∨ c = Char.ofNat 13

/-- Leading/trailing-whitespace trim (the `String(x).trim()` step of
`BigInt`). -/
def jsTrim (s : String) : String :=
  String.mk (((s.toList.dropWhile isJsWs).reverse.dropWhile isJsWs).reverse)

/-- Model of JS `BigInt(String(x))` on decimal inputs: optional sign followed by
digits; the empty (trimmed) string is `0`; anything else throws (`none`). -/
def jsBigIntOfString (s : String) : Option Int :=
  let t := jsTrim s
  if t = "" then some 0
  else match t.toList with
    | '-' :: cs =>
      match cs with
      | [] => none
      | _ => (decDigitsGo 0 cs).map (fun n => -(n : Int))
    | '+' :: cs =>
      match cs with
      | [] => none
      | _ => (decDigitsGo 0 cs).map (fun n => (n : Int))
    | cs => (decDigitsGo 0 cs).map (fun n => (n : Int))

/-- `try { BigInt(String(raw)) } catch { 0n }` from `extractOwnerMintDeltas`. -/
def jsBigInt (s : String) : Int := (jsBigIntOfString s).getD 0

/-- Lexicographic comparison of codepoint sequences (JS default sort
compares UTF-16 code-unit sequences; identical on the identifiers here). -/
def charListLt : List Char → List Char → Bool
  | [], [] => false
  | [], _ :: _ => true
  | _ :: _, [] => false
  | a :: as, b :: bs => if a < b then true else if b < a then false else charListLt as bs

def jsStrLt (a b : String) : Bool := charListLt a.toList b.toList

/-- Insert a string into a sorted list. -/
def insertSorted (a : String) : List String → List String
  | [] => [a]
  | b :: bs => if jsStrLt a b then a :: b :: bs else b :: insertSorted a bs

/-- Sort a list of strings (model of `Array.prototype.sort()`). -/
def sortStrings (l : List String) : List String := l.foldr insertSorted []

/-- De-duplicate keeping first occurrences (model of `new Set(arr)` order);
`seen` holds the values already emitted. -/
def dedupSeen (seen : List String) : List String → List String
  | [] => []
  | a :: as => if seen.contains a then dedupSeen seen as else a :: dedupSeen (a :: seen) as

def dedupFirst (l : List String) : List String := dedupSeen [] l

/-- `sortUnique(arr) = Array.from(new Set(arr)).sort()` from the source. -/
def sortUnique (l : List String) : List String := sortStrings (dedupFirst l)

/-- `stableRaw(usdc, usdt) = usdc + usdt` from the source. -/
def stableRaw (usdc usdt : Int) : Int := usdc + usdt

/-- Positional lookup in a list, mirroring JS `arr[i]` (`undefined` ↦ `none`). -/
def listAt {α : Type} : List α → Nat → Option α
  | [], _ => none
  | a :: _, 0 => some a
  | _ :: t, n + 1 => listAt t n

/-! ## SHA-256 (`crypto.createHash("sha256").update(s).digest("hex")`)

Word arithmetic is `Nat` with explicit reduction mod `2 ^ 32`.  The round
constants are the fractional parts of the cube roots of the first 64 primes
and the initial hash the fractional parts of the square roots of the first
8 primes, computed here by integer root extraction. -/

def w32 (n : Nat) : Nat := n % 4294967296

def rotr (x n : Nat) : Nat := w32 (x / 2 ^ n + x % 2 ^ n * 2 ^ (32 - n))

def shr (x n : Nat) : Nat := x / 2 ^ n

def bnot32 (x : Nat) : Nat := 4294967295 - x % 4294967296

def bigSigma0 (x : Nat) : Nat := (rotr x 2).xor ((rotr x 13).xor (rotr x 22))

def bigSigma1 (x : Nat) : Nat := (rotr x 6).xor ((rotr x 11).xor (rotr x 25))

def smallSigma0 (x : Nat) : Nat := (rotr x 7).xor ((rotr x 18).xor (shr x 3))

def smallSigma1 (x : Nat) : Nat := (rotr x 17).xor ((rotr x 19).xor (shr x 10))

def chFn (x y z : Nat) : Nat := (x.land y).xor ((bnot32 x).land z)

def majFn (x y z : Nat) : Nat := (x.land y).xor ((x.land z).xor (y.land z))

def sha256Primes : List Nat :=
  [2, 3, 5, 7, 11, 13, 17, 19, 23, 29, 31, 37, 41, 43, 47, 53,
   59, 61, 67, 71, 73, 79, 83, 89, 97, 101, 103, 107, 109, 113, 127, 131,
   137, 139, 149, 151, 157, 163, 167, 173, 179, 181, 191, 193, 197, 199, 211, 223,
   227, 229, 233, 239, 241, 251, 257, 263, 269, 271, 277, 281, 283, 293, 307, 311]

/-- Bitwise integer cube root: greedy descent over bit positions. -/
def icbrtGo (n : Nat) : Nat → Nat → Nat
  | 0, acc => acc
  | k + 1, acc =>
    let c := acc + 2 ^ k
    if c ^ 3 ≤ n then icbrtGo n k c else icbrtGo n k acc

def icbrt (n : Nat) : Nat := icbrtGo n 40 0

def sha256K : List Nat := sha256Primes.map (fun p => icbrt (p * 2 ^ 96) % 4294967296)

def sha256H0 : List Nat := (sha256Primes.take 8).map (fun p => Nat.sqrt (p * 2 ^ 64) % 4294967296)

/-- UTF-8 encoding of one codepoint. -/
def utf8Bytes (c : Char) : List Nat :=
  let n := c.toNat
  if n < 128 then [n]
  else if n < 2048 then [192 + n / 64, 128 + n % 64]
  else if n < 65536 then [224 + n / 4096, 128 + n / 64 % 64, 128 + n % 64]
  else [240 + n / 262144, 128 + n / 4096 % 64, 128 + n / 64 % 64, 128 + n % 64]

def toBytes (s : String) : List Nat := (s.toList.map utf8Bytes).join

/-- Big-endian byte expansion of `v` into `k` bytes. -/
def beBytes : Nat → Nat → List Nat
  | 0, _ => []
  | k + 1, v => beBytes k (v / 256) ++ [v % 256]

/-- SHA-256 padding: `0x80`, zero fill to 56 mod 64, 64-bit bit length. -/
def sha256Pad (msg : List Nat) : List Nat :=
  let L := msg.length
  let z := (119 - L % 64) % 64
  msg ++ [128] ++ List.replicate z 0 ++ beBytes 8 (L * 8)

def bytesToWords : List Nat → List Nat
  | b0 :: b1 :: b2 :: b3 :: rest =>
    (((b0 * 256 + b1) * 256 + b2) * 256 + b3) :: bytesToWords rest
  | _ => []

def chunks16 (l : List Nat) : List (List Nat) :=
  if h : l = [] then [] else l.take 16 :: chunks16 (l.drop 16)
termination_by l.length
decreasing_by
  simp only [List.length_drop]
  exact Nat.sub_lt (List.length_pos.mpr h) (by decide)

def schedStep (w : List Nat) : List Nat :=
  let n := w.length
  let g := fun i => (listAt w i).getD 0
  w ++ [w32 (smallSigma1 (g (n - 2)) + g (n - 7) + smallSigma0 (g (n - 15)) + g (n - 16))]

def schedule (w : List Nat) : Nat → List Nat
  | 0 => w
  | k + 1 => schedule (schedStep w) k

def compressRound (st : List Nat) (kw : Nat × Nat) : List Nat :=
  match st with
  | [a, b, c, d, e, f, g, hh] =>
    let t1 := w32 (hh + bigSigma1 e + chFn e f g + kw.1 + kw.2)
    let t2 := w32 (bigSigma0 a + majFn a b c)
    [w32 (t1 + t2), a, b, c, w32 (d + t1), e, f, g]
  | other => other

def compressBlock (hv : List Nat) (block : List Nat) : List Nat :=
  let w := schedule block 48
  let st := (sha256K.zip w).foldl compressRound hv
  (hv.zip st).map (fun p => w32 (p.1 + p.2))

def sha256Words (s : String) : List Nat :=
  (chunks16 (bytesToWords (sha256Pad (toBytes s)))).foldl compressBlock sha256H0

def hexDigit (n : Nat) : Char :=
  if n < 10 then Char.ofNat (48 + n) else Char.ofNat (87 + n)

def hex8 (n : Nat) : String :=
  String.mk ((List.range 8).map (fun i => hexDigit (n / 16 ^ (7 - i) % 16)))

/-- `sha256Hex(s)` from the source. -/
def sha256Hex (s : String) : String := String.join ((sha256Words s).map hex8)

/-! ## JSON serialization (`JSON.stringify`, compact form) -/

def escChar (c : Char) : String :=
  if c = '"' then "\\\""
  else if c = '\\' then "\\\\"
  else if c = Char.ofNat 8 then "\\b"
  else if c = Char.ofNat 9 then "\\t"
  else if c = Char.ofNat 10 then "\\n"
  else if c = Char.ofNat 12 then "\\f"
  else if c = Char.ofNat 13 then "\\r"
  else if c.toNat < 32 then "\\u00" ++ String.mk [hexDigit (c.toNat / 16), hexDigit (c.toNat % 16)]
  else String.singleton c

def jsonStr (s : String) : String := "\"" ++ String.join (s.toList.map escChar) ++ "\""

def jsonStrArray (l : List String) : String :=
  "[" ++ String.intercalate "," (l.map jsonStr) ++ "]"

/-- The fingerprint payload `JSON.stringify({ type, source, programs, mints })`;
object keys appear in insertion order, no whitespace. -/
def fpPayloadJson (type source : String) (programs mints : List String) : String :=
  "\x7b\"type\":" ++ jsonStr type ++ ",\"source\":" ++ jsonStr source ++
  ",\"programs\":" ++ jsonStrArray programs ++ ",\"mints\":" ++ jsonStrArray mints ++ "\x7d"

/-! ## Insertion-ordered maps (JS `Map` / plain-object semantics)

A JS `Map` iterates in key insertion order; `set` on a present key updates
the value in place (keeping the key's position), `set` on an absent key
appends, and `delete` removes the entry.  We embed such maps as association
lists and the operations below implement exactly those rules. -/

def mapLookup {β : Type} : List (String × β) → String → Option β
  | [], _ => none
  | (a, v) :: t, k => if a = k then some v else mapLookup t k

def mapHas {β : Type} (m : List (String × β)) (k : String) : Bool :=
  m.any (fun p => p.1 = k)

def mapSet {β : Type} : List (String × β) → String → β → List (String × β)
  | [], k, v => [(k, v)]
  | (a, w) :: t, k, v => if a = k then (k, v) :: t else (a, w) :: mapSet t k v

def mapDelete {β : Type} : List (String × β) → String → List (String × β) × Bool
  | [], _ => ([], false)
  | (a, w) :: t, k =>
    if a = k then (t, true)
    else
      let r := mapDelete t k
      ((a, w) :: r.1, r.2)

/-! ## Static tables from the source -/

/-- `JITO_TIP_ACCOUNTS` (mainnet tip accounts). -/
def jitoTipAccounts : List String :=
  ["ADaUMid9yfUytqMBgopwjb2DTLSokTSzL1zt6iGPaS49",
   "Cw8CFyM9FkoMi7K7Crf6HNQqf4uEMzpKw6QNghXLvLkY",
   "HFqU5x63VTqvQss8hp11i4wVV8bD44PvwucfZ2bU7gRe",
   "DfXygSm4jCyNCybVYYK6DwvWqjKee8pbDmJGcLWNDXjh",
   "96gYZGLnJYVFmbjzopPSU6QiEV5fGqZNyN9nmNhvrZU5",
   "ADuUkR4vqLUMWXxW9gh6D6L8pMSawimctcNZ5pGwDcEt",
   "3AVi9Tg9Uo68tJfuvoKvqKNWKkC5wPdSSdeBnizKZ6jT",
   "DttWaMuVvTiduZRnguLF7jNxTgiMBZ1hyAumKUiL2KRL"]

/-- `NOISE_PROGRAMS`: system/token/ATA/compute-budget/memo program ids. -/
def noisePrograms : List String :=
  ["11111111111111111111111111111111",
   "TokenkegQfeZyiNwAJbNbGKPFXCWuBvf9Ss623VQ5DA",
   "ATokenGPvbdGVxr1b2hvZbsiqW5xWH25efTNsLJA8knL",
   "ComputeBudget111111111111111111111111111111",
   "MemoSq4gqABAXKb96qnH8TysNcWxMyWCqXgDLGmfcHr"]

def wsolMint : String := "So11111111111111111111111111111111111111112"

def usdcMint : String := "EPjFWdd5AufqSSqeM2qN1xzybapC8G4wEGGkZwyTDt1v"

def usdtMint : String := "Es9vMFrzaCERmJfrF4H2FYD4KCoNkY11McCe8BenwNYB"

/-! ## Configuration

The script reads these from the environment at startup, applying the clamps
below (`BATCH_SIZE = Math.max(1, Math.min(250, …))` and so on).  `Config`
carries the post-clamp values and `Config.valid` records exactly the ranges
the clamps can produce. -/

structure Config where
  batchSize : Nat
  batchIntervalMs : Nat
  initialDelayMs : Nat
  maxMissingRetries : Nat
  maxPending : Nat
  ingressSamplePct : ℚ
  storeEnhanced : Bool
deriving DecidableEq

def Config.valid (c : Config) : Prop :=
  1 ≤ c.batchSize ∧ c.batchSize ≤ 250 ∧ 100 ≤ c.batchIntervalMs ∧
  1000 ≤ c.maxPending ∧ 0 ≤ c.ingressSamplePct ∧ c.ingressSamplePct ≤ 1

instance (c : Config) : Decidable c.valid := by
  unfold Config.valid; infer_instance

/-! ## Data model -/

/-- One entry of the `pending` map:
`sig -> { seenAtMs, hintSlot, attempts, nextAttemptAtMs, source }`. -/
structure PendingEntry where
  seenAtMs : Nat
  hintSlot : Option Nat
  attempts : Nat
  nextAttemptAtMs : Nat
  source : Option String
deriving DecidableEq

/-- `rawTokenAmount` of a token balance change. -/
structure RawTokenAmount where
  tokenAmount : Option String
  decimals : Option Int
deriving DecidableEq

structure TokenBalanceChange where
  userAccount : Option String
  mint : Option String
  rawTokenAmount : Option RawTokenAmount
deriving DecidableEq

structure AccountData where
  account : Option String
  nativeBalanceChange : Option Int
  tokenBalanceChanges : Option (List TokenBalanceChange)
deriving DecidableEq

structure InnerIx where
  programId : Option String
deriving DecidableEq

structure Instr where
  programId : Option String
  innerInstructions : Option (List InnerIx)
deriving DecidableEq

structure TokenTransfer where
  mint : Option String
deriving DecidableEq

structure SwapLeg where
  mint : Option String
deriving DecidableEq

structure InnerSwap where
  tokenInputs : Option (List SwapLeg)
  tokenOutputs : Option (List SwapLeg)
  tokenFees : Option (List SwapLeg)
deriving DecidableEq

structure SwapEvent where
  tokenInputs : Option (List SwapLeg)
  tokenOutputs : Option (List SwapLeg)
  tokenFees : Option (List SwapLeg)
  innerSwaps : Option (List InnerSwap)
deriving DecidableEq

structure EnhEvents where
  swap : Option SwapEvent
deriving DecidableEq

/-- One enhanced-transaction object from the enrichment endpoint, with the
fields the script reads. -/
structure Enh where
  signature : Option String
  fee : Option Int
  feePayer : Option String
  slot : Option Int
  timestamp : Option Int
  type : Option String
  source : Option String
  description : Option String
  instructions : Option (List Instr)
  accountData : Option (List AccountData)
  tokenTransfers : Option (List TokenTransfer)
  events : Option EnhEvents
deriving DecidableEq

/-- Result of `extractJitoTip`. -/
structure TipInfo where
  totalLamports : Int
  breakdown : List (String × Int)
deriving DecidableEq

/-- Result of `bestStableDelta`. -/
structure BestStable where
  bestOwner : Option String
  bestUsdc : Int
  bestUsdt : Int
  bestStable : Int
deriving DecidableEq

/-- The `delta` argument of `bumpProgram` / `bumpFingerprint`. -/
structure Delta where
  fee : Int
  tip : Int
  stable : Int
deriving DecidableEq

/-- The `examples` argument of `bumpFingerprint`. -/
structure FpExamples where
  sig : String
  programs : List String
  mints : List String
  typeSource : String
deriving DecidableEq

/-- One value of the `fpStats` map. -/
structure FpStat where
  fingerprint : String
  firstSeenMs : Nat
  lastSeenMs : Nat
  count : Nat
  uniqueFeePayers : List String
  totalFeeLamports : Int
  totalJitoTipLamports : Int
  totalStableRaw : Int
  maxStableRaw : Int
  exampleSignatures : List String
  examplePrograms : List String
  exampleMints : List String
  exampleTypeSource : Option String
deriving DecidableEq

/-- One value of the `programStats` map. -/
structure ProgStat where
  programId : String
  count : Nat
  totalFeeLamports : Int
  totalJitoTipLamports : Int
  totalStableRaw : Int
  maxStableRaw : Int
deriving DecidableEq

/-- One newline-delimited record appended to the durable log (`outStream`). -/
structure LogRecord where
  schema : String
  signature : String
  slot : Int
  timestamp : Option Int
  observedAtMs : Nat
  source : Option String
  type : String
  sourceCategory : String
  description : Option String
  feeLamports : Int
  feePayer : String
  jitoTipLamports : Int
  jitoTipBreakdown : List (String × Int)
  programIdsInteresting : List String
  changedMints : List String
  fingerprint : String
  ownerMintDeltas : List (String × List (String × Int))
  bestStableOwner : Option String
  bestUsdcDeltaRaw : Int
  bestUsdtDeltaRaw : Int
  bestStableDeltaRaw : Int
  feePayerWsolDeltaRaw : Int
  feePayerUsdcDeltaRaw : Int
  feePayerUsdtDeltaRaw : Int
  enhanced : Option Enh
deriving DecidableEq

/-- The script's module-level mutable state: the pending buffer with its
insertion-order log and cursors, the counters, the two aggregate tables, the
durable log contents, and the in-flight latch. -/
structure St where
  pending : List (String × PendingEntry)
  pendingOrder : List String
  evictIdx : Nat
  scanIdx : Nat
  ingested : Nat
  sampledOut : Nat
  evicted : Nat
  processed : Nat
  droppedMissing : Nat
  enhancedMissing : Nat
  enhancedRateLimited : Nat
  enhancedOtherErrors : Nat
  fpStats : List (String × FpStat)
  programStats : List (String × ProgStat)
  log : List LogRecord
  inFlight : Bool
deriving DecidableEq

def initSt : St :=
  { pending := [], pendingOrder := [], evictIdx := 0, scanIdx := 0,
    ingested := 0, sampledOut := 0, evicted := 0, processed := 0,
    droppedMissing := 0, enhancedMissing := 0, enhancedRateLimited := 0,
    enhancedOtherErrors := 0, fpStats := [], programStats := [], log := [],
    inFlight := false }

/-! ## Network model

`postJson` classifies each HTTP attempt: a 2xx response parses as JSON (the
parse may yield a non-array, which `fetchEnhancedBatch` maps to `[]`), a 429
rejects with `statusCode = 429`, a timeout rejects with a message containing
"timeout", and everything else rejects with some other error.  The oracle
`net : Nat → NetResult` gives the outcome of attempt number `i`. -/

inductive NetResult where
  | success (response : Option (List Enh))
  | rateLimited
  | timeout
  | otherError (statusCode : Option Nat) (msg : String)
deriving DecidableEq

structure NetErr where
  statusCode : Option Nat
  msg : String
deriving DecidableEq

/-! ## Enrichment client: `fetchEnhancedBatch` -/

/-- The retry loop of `fetchEnhancedBatch`: `for (attempt = 0; attempt < 6; …)`.
On success a non-array response yields `[]`; 429 and timeout back off and
retry (the sleeps have no observable effect in this model); any other error
is thrown at once; after the sixth failed attempt the loop falls through and
the function returns `[]`. -/
def fetchLoop (net : Nat → NetResult) : Nat → Nat → Except NetErr (List Enh)
  | _, 0 => Except.ok []
  | attempt, fuel + 1 =>
    match net attempt with
    | NetResult.success r => Except.ok (r.getD [])
    | NetResult.rateLimited => fetchLoop net (attempt + 1) fuel
    | NetResult.timeout => fetchLoop net (attempt + 1) fuel
    | NetResult.otherError c m => Except.error ⟨c, m⟩

/-- `fetchEnhancedBatch(signatures)`.  The request body (the signature list)
does not influence the oracle-modelled transport, but is kept as an argument
for fidelity. -/
def fetchEnhancedBatch (_signatures : List String) (net : Nat → NetResult) :
    Except NetErr (List Enh) :=
  fetchLoop net 0 6

/-! ## Signature intake: `tryIngestSignature` -/

/-- The eviction scan inside `tryIngestSignature`:
`while (evictIdx < pendingOrder.length) { const old = pendingOrder[evictIdx++];
if (pending.delete(old)) { evicted += 1; break; } }`.
Returns the new pending map, the new `evictIdx` and the new `evicted`. -/
def evictLoop (order : List String) :
    List (String × PendingEntry) → Nat → Nat → List (String × PendingEntry) × Nat × Nat
  | pending, i, ev =>
    if h : i < order.length then
      match listAt order i with
      | none => (pending, i + 1, ev)
      | some old =>
        let r := mapDelete pending old
        if r.2 then (r.1, i + 1, ev + 1) else evictLoop order r.1 (i + 1) ev
    else (pending, i, ev)
termination_by _ i _ => order.length - i
decreasing_by exact Nat.sub_lt_sub_left h (Nat.lt_succ_self i)

/-- The five buffer variables `tryIngestSignature` may mutate before
inserting the new entry. -/
structure EvictOut where
  pending : List (String × PendingEntry)
  evictIdx : Nat
  evicted : Nat
  order : List String
  scanIdx : Nat
deriving DecidableEq

/-- The capacity check of `tryIngestSignature`: eviction when the buffer is
full, followed by the periodic compaction of `pendingOrder`. -/
def evictStep (cfg : Config) (s : St) : EvictOut :=
  if cfg.maxPending ≤ s.pending.length then
    let r := evictLoop s.pendingOrder s.pending s.evictIdx s.evicted
    if 50000 < r.2.1 ∧ s.pendingOrder.length < 2 * r.2.1 then
      ⟨r.1, 0, r.2.2, s.pendingOrder.drop r.2.1, s.scanIdx - r.2.1⟩
    else
      ⟨r.1, r.2.1, r.2.2, s.pendingOrder, s.scanIdx⟩
  else ⟨s.pending, s.evictIdx, s.evicted, s.pendingOrder, s.scanIdx⟩

/-- The `PendingEntry` built for an accepted signature. -/
def newEntry (cfg : Config) (hintSlot : Option Nat) (source : Option String)
    (now : Nat) : PendingEntry :=
  { seenAtMs := now, hintSlot := jsNumOrNull hintSlot, attempts := 0,
    nextAttemptAtMs := now + cfg.initialDelayMs, source := jsStrOrNull source }

/-- `tryIngestSignature(sig, hintSlot, source)`.  The `Math.random()` draw and
`Date.now()` are passed in as `draw` and `now`. -/
def tryIngestSignature (cfg : Config) (s : St) (sig : String) (hintSlot : Option Nat)
    (source : Option String) (draw : ℚ) (now : Nat) : St :=
  if sig = "" then s
  else if mapHas s.pending sig then s
  else if cfg.ingressSamplePct < 1 ∧ cfg.ingressSamplePct < draw then
    { s with sampledOut := s.sampledOut + 1 }
  else
    let r := evictStep cfg s
    { s with
      pending := mapSet r.pending sig (newEntry cfg hintSlot source now),
      evictIdx := r.evictIdx,
      evicted := r.evicted,
      pendingOrder := r.order ++ [sig],
      scanIdx := r.scanIdx,
      ingested := s.ingested + 1 }

/-- One intake event: the subscription callback arguments plus the sampling
draw and the clock reading at the time of the call. -/
structure IngestEv where
  sig : String
  hintSlot : Option Nat
  source : Option String
  draw : ℚ
  now : Nat
deriving DecidableEq

def ingest1 (cfg : Config) (s : St) (ev : IngestEv) : St :=
  tryIngestSignature cfg s ev.sig ev.hintSlot ev.source ev.draw ev.now

/-- A whole sequence of `tryIngestSignature` calls. -/
def runIngests (cfg : Config) (s : St) (evs : List IngestEv) : St :=
  evs.foldl (ingest1 cfg) s

/-! ## Batch selection: `selectReadyBatch` -/

/-- The scan loop of `selectReadyBatch`.  `fuel` is `maxScan - scanned`; the
returned triple is `(out, scanIdx, scanned)`. -/
def selectGo (pending : List (String × PendingEntry)) (order : List String)
    (batchSize now : Nat) :
    Nat → Nat → Nat → List String → List String × Nat × Nat
  | 0, scanIdx, scanned, out => (out.reverse, scanIdx, scanned)
  | fuel + 1, scanIdx, scanned, out =>
    if batchSize ≤ out.length ∨ order.length = 0 then (out.reverse, scanIdx, scanned)
    else
      let scanIdx1 := if order.length ≤ scanIdx then 0 else scanIdx
      match listAt order scanIdx1 with
      | none => selectGo pending order batchSize now fuel (scanIdx1 + 1) (scanned + 1) out
      | some sig =>
        match mapLookup pending sig with
        | none => selectGo pending order batchSize now fuel (scanIdx1 + 1) (scanned + 1) out
        | some meta =>
          if now < meta.nextAttemptAtMs then
            selectGo pending order batchSize now fuel (scanIdx1 + 1) (scanned + 1) out
          else
            selectGo pending order batchSize now fuel (scanIdx1 + 1) (scanned + 1) (sig :: out)

/-- The scan cap: `clampInt(BATCH_SIZE * 50, 500, 20_000)`. -/
def maxScanOf (cfg : Config) : Nat := clampInt (cfg.batchSize * 50) 500 20000

/-- `selectReadyBatch(now)`: collects up to `BATCH_SIZE` ready signatures,
scanning `pendingOrder` from `scanIdx` with wraparound, examining at most
`maxScan` positions.  Returns `(out, scanIdx, scanned)`; the pending map is
read but never written. -/
def selectReadyBatch (cfg : Config) (pending : List (String × PendingEntry))
    (order : List String) (scanIdx now : Nat) : List String × Nat × Nat :=
  selectGo pending order cfg.batchSize now (maxScanOf cfg) scanIdx 0 []

/-! ## Extraction -/

/-- Truthiness push: `if (x?.field) arr.push(String(x.field))`. -/
def pushTruthy (acc : List String) : Option String → List String
  | none => acc
  | some p => if p = "" then acc else acc ++ [p]

/-- `extractPrograms(enh)`: program ids of all instructions and inner
instructions, sorted and de-duplicated. -/
def extractPrograms (enh : Enh) : List String :=
  let programs := (enh.instructions.getD []).foldl
    (fun acc ix =>
      let acc := pushTruthy acc ix.programId
      (ix.innerInstructions.getD []).foldl (fun a inIx => pushTruthy a inIx.programId) acc)
    []
  sortUnique programs

def swapLegMints (acc : List String) (legs : Option (List SwapLeg)) : List String :=
  (legs.getD []).foldl (fun a x => pushTruthy a x.mint) acc

/-- `extractChangedMints(enh)`: mints from token balance changes, token
transfers and the (possibly nested) swap event, sorted and de-duplicated. -/
def extractChangedMints (enh : Enh) : List String :=
  let mints := (enh.accountData.getD []).foldl
    (fun acc ad => (ad.tokenBalanceChanges.getD []).foldl (fun a c => pushTruthy a c.mint) acc)
    []
  let mints := (enh.tokenTransfers.getD []).foldl (fun a t => pushTruthy a t.mint) mints
  let mints :=
    match enh.events.bind (fun e => e.swap) with
    | none => mints
    | some swap =>
      let mints := swapLegMints mints swap.tokenInputs
      let mints := swapLegMints mints swap.tokenOutputs
      let mints := swapLegMints mints swap.tokenFees
      (swap.innerSwaps.getD []).foldl
        (fun a s =>
          let a := swapLegMints a s.tokenInputs
          let a := swapLegMints a s.tokenOutputs
          swapLegMints a s.tokenFees)
        mints
  sortUnique mints

/-- `extractJitoTip(enh)`: positive native balance changes on the tip-account
allow-list, with total and per-account breakdown. -/
def extractJitoTip (enh : Enh) : TipInfo :=
  (enh.accountData.getD []).foldl
    (fun t ad =>
      let acct := ad.account.getD ""
      if jitoTipAccounts.contains acct then
        let change : Int := ad.nativeBalanceChange.getD 0
        if 0 < change then
          { totalLamports := t.totalLamports + change,
            breakdown := mapSet t.breakdown acct change }
        else t
      else t)
    ⟨0, []⟩

/-- `extractOwnerMintDeltas(enh)`: owner → mint → summed raw delta. -/
def extractOwnerMintDeltas (enh : Enh) : List (String × List (String × Int)) :=
  (enh.accountData.getD []).foldl
    (fun om ad =>
      (ad.tokenBalanceChanges.getD []).foldl
        (fun om c =>
          let owner := (c.userAccount.getD "")
          let mint := (c.mint.getD "")
          match c.rawTokenAmount.bind (fun r => r.tokenAmount) with
          | none => om
          | some raw =>
            if owner = "" ∨ mint = "" then om
            else
              let delta := jsBigInt raw
              let m := (mapLookup om owner).getD []
              mapSet om owner (mapSet m mint ((mapLookup m mint).getD 0 + delta)))
        om)
    []

/-- `bestStableDelta(ownerMintDeltas)`: the owner with the largest strictly
positive combined USDC+USDT delta; ties keep the first in iteration order. -/
def bestStableDelta (omd : List (String × List (String × Int))) : BestStable :=
  omd.foldl
    (fun b p =>
      let usdc := (mapLookup p.2 usdcMint).getD 0
      let usdt := (mapLookup p.2 usdtMint).getD 0
      let s := stableRaw usdc usdt
      if b.bestStable < s then ⟨some p.1, usdc, usdt, s⟩ else b)
    ⟨none, 0, 0, 0⟩

/-! ## Aggregation: `bumpProgram`, `bumpFingerprint` -/

def bumpProgram (tbl : List (String × ProgStat)) (pid : String) (delta : Delta) :
    List (String × ProgStat) :=
  let s := (mapLookup tbl pid).getD
    { programId := pid, count := 0, totalFeeLamports := 0, totalJitoTipLamports := 0,
      totalStableRaw := 0, maxStableRaw := 0 }
  let s :=
    { s with
      count := s.count + 1,
      totalFeeLamports := s.totalFeeLamports + delta.fee,
      totalJitoTipLamports := s.totalJitoTipLamports + delta.tip,
      totalStableRaw := s.totalStableRaw + delta.stable }
  let s := if s.maxStableRaw < delta.stable then { s with maxStableRaw := delta.stable } else s
  mapSet tbl pid s

def bumpFingerprint (tbl : List (String × FpStat)) (fp feePayer : String) (t : Nat)
    (delta : Delta) (ex : FpExamples) : List (String × FpStat) :=
  let s := (mapLookup tbl fp).getD
    { fingerprint := fp, firstSeenMs := t, lastSeenMs := t, count := 0,
      uniqueFeePayers := [], totalFeeLamports := 0, totalJitoTipLamports := 0,
      totalStableRaw := 0, maxStableRaw := 0, exampleSignatures := [],
      examplePrograms := [], exampleMints := [],
      exampleTypeSource := jsStrOrNull (some ex.typeSource) }
  let s :=
    { s with
      lastSeenMs := t,
      count := s.count + 1,
      uniqueFeePayers :=
        if s.uniqueFeePayers.contains feePayer then s.uniqueFeePayers
        else s.uniqueFeePayers ++ [feePayer],
      totalFeeLamports := s.totalFeeLamports + delta.fee,
      totalJitoTipLamports := s.totalJitoTipLamports + delta.tip,
      totalStableRaw := s.totalStableRaw + delta.stable }
  let s := if s.maxStableRaw < delta.stable then { s with maxStableRaw := delta.stable } else s
  let s :=
    if s.exampleSignatures.length < 5 then
      { s with exampleSignatures := s.exampleSignatures ++ [ex.sig] }
    else s
  let s :=
    if s.examplePrograms.length = 0 then { s with examplePrograms := ex.programs.take 16 }
    else s
  let s :=
    if s.exampleMints.length = 0 then { s with exampleMints := ex.mints.take 16 }
    else s
  mapSet tbl fp s

/-! ## Processing one requested signature inside `batcherTick` -/

/-- The evidence-of-value test guarding the aggregate updates. -/
def hasEvidence (enh : Enh) : Prop :=
  0 < (bestStableDelta (extractOwnerMintDeltas enh)).bestStable ∨
  0 < (extractJitoTip enh).totalLamports

instance (enh : Enh) : Decidable (hasEvidence enh) := by
  unfold hasEvidence; infer_instance

/-- `programsInteresting`: the extracted program set with the noise
allow/deny list filtered out. -/
def programsInterestingOf (enh : Enh) : List String :=
  (extractPrograms enh).filter (fun p => !(noisePrograms.contains p))

/-- The `delta` record passed to both bump functions for one record. -/
def deltaOf (enh : Enh) : Delta :=
  { fee := enh.fee.getD 0,
    tip := (extractJitoTip enh).totalLamports,
    stable := (bestStableDelta (extractOwnerMintDeltas enh)).bestStable }

/-- The fingerprint of one enriched record:
`sha256Hex(JSON.stringify({ type, source, programs[:32], mints[:32] }))` with
`programs` noise-filtered. -/
def fingerprintOf (enh : Enh) : String :=
  sha256Hex (fpPayloadJson (enh.type.getD "") (enh.source.getD "")
    ((programsInterestingOf enh).take 32) ((extractChangedMints enh).take 32))

/-- The success branch of the per-signature loop: extraction, conditional
aggregation, durable-log append, removal from the pending buffer.  `now2` is
the `nowMs()` reading during processing. -/
def processEnh (cfg : Config) (s : St) (sig : String) (meta : PendingEntry)
    (enh : Enh) (now2 : Nat) : St :=
  let feeLamports : Int := enh.fee.getD 0
  let feePayer := enh.feePayer.getD ""
  let slot : Int := (enh.slot.getD ((meta.hintSlot.map Int.ofNat).getD (-1)))
  let timestamp := enh.timestamp
  let tip := extractJitoTip enh
  let programsInteresting := programsInterestingOf enh
  let changedMints := extractChangedMints enh
  let omd := extractOwnerMintDeltas enh
  let best := bestStableDelta omd
  let type := enh.type.getD ""
  let source := enh.source.getD ""
  let typeSource := type ++ ":" ++ source
  let fingerprint := fingerprintOf enh
  let stable := best.bestStable
  let s :=
    if hasEvidence enh then
      let s := { s with fpStats := (bumpFingerprint s.fpStats fingerprint feePayer now2
        (deltaOf enh) ⟨sig, programsInteresting, changedMints, typeSource⟩) }
      { s with programStats := (programsInteresting.foldl
        (fun ps pid => bumpProgram ps pid (deltaOf enh))
        s.programStats) }
    else s
  let record : LogRecord :=
    { schema := "alpha_mev_surface_v2",
      signature := sig,
      slot := slot,
      timestamp := timestamp,
      observedAtMs := meta.seenAtMs,
      source := meta.source,
      type := type,
      sourceCategory := source,
      description := enh.description,
      feeLamports := feeLamports,
      feePayer := feePayer,
      jitoTipLamports := tip.totalLamports,
      jitoTipBreakdown := tip.breakdown,
      programIdsInteresting := programsInteresting,
      changedMints := changedMints,
      fingerprint := fingerprint,
      ownerMintDeltas := omd,
      bestStableOwner := best.bestOwner,
      bestUsdcDeltaRaw := best.bestUsdc,
      bestUsdtDeltaRaw := best.bestUsdt,
      bestStableDeltaRaw := best.bestStable,
      feePayerWsolDeltaRaw := ((mapLookup omd feePayer).bind (fun m => mapLookup m wsolMint)).getD 0,
      feePayerUsdcDeltaRaw := ((mapLookup omd feePayer).bind (fun m => mapLookup m usdcMint)).getD 0,
      feePayerUsdtDeltaRaw := ((mapLookup omd feePayer).bind (fun m => mapLookup m usdtMint)).getD 0,
      enhanced := if cfg.storeEnhanced then some enh else none }
  { s with
    log := s.log ++ [record],
    processed := s.processed + 1,
    pending := (mapDelete s.pending sig).1 }

/-- One iteration of `for (const sig of sigs)` in the success path of
`batcherTick`: skip if no longer pending, otherwise apply the missing-retry
path (`enh?` absent from the response) or process the record. -/
def processSig (cfg : Config) (s : St) (sig : String) (enh? : Option Enh) (now2 : Nat) : St :=
  match mapLookup s.pending sig with
  | none => s
  | some meta =>
    match enh? with
    | none =>
      let s := { s with enhancedMissing := s.enhancedMissing + 1 }
      let attempts1 := meta.attempts + 1
      if cfg.maxMissingRetries < attempts1 then
        { s with
          pending := (mapDelete s.pending sig).1,
          droppedMissing := s.droppedMissing + 1 }
      else
        let backoff := min 20000 (500 * 2 ^ attempts1)
        { s with pending := (mapSet s.pending sig
          { meta with attempts := attempts1, nextAttemptAtMs := now2 + backoff }) }
    | some enh => processEnh cfg s sig meta enh now2

/-- `bySig`: index the response list by signature (falsy signatures skipped;
a duplicate signature overwrites the earlier record, keeping its position). -/
def indexBySig (enhanced : List Enh) : List (String × Enh) :=
  enhanced.foldl
    (fun m tx =>
      match tx.signature with
      | none => m
      | some sg => if sg = "" then m else mapSet m sg tx)
    []

/-- `meta.nextAttemptAtMs = Math.max(meta.nextAttemptAtMs, t)`. -/
def bumpNext (t : Nat) (m : PendingEntry) : PendingEntry :=
  { m with nextAttemptAtMs := max m.nextAttemptAtMs t }

/-- One iteration of the reschedule loop in the catch branch. -/
def failStep (t : Nat) (st : St) (sig : String) : St :=
  match mapLookup st.pending sig with
  | none => st
  | some meta => { st with pending := mapSet st.pending sig (bumpNext t meta) }

/-- The catch branch of `batcherTick`: classify the error into a counter and
push `nextAttemptAtMs` of every selected, still-present signature to at least
`now2 + 1000`. -/
def failRescheduleTick (s : St) (err : NetErr) (sigs : List String) (now2 : Nat) : St :=
  let s :=
    if err.statusCode = some 429 ∨ jsIncludes err.msg "429" then
      { s with enhancedRateLimited := s.enhancedRateLimited + 1 }
    else
      { s with enhancedOtherErrors := s.enhancedOtherErrors + 1 }
  sigs.foldl (failStep (now2 + 1000)) s

/-- Number of log records carrying a given signature. -/
def countSig (log : List LogRecord) (sig : String) : Nat :=
  (log.filter (fun r => r.signature = sig)).length

/-- The entry after one missing outcome that stays within the retry budget:
`attempts` incremented, `nextAttemptAtMs = now + min(20000, 500 * 2^attempts)`. -/
def missRetryEntry (meta : PendingEntry) (now2 : Nat) : PendingEntry :=
  { meta with
    attempts := meta.attempts + 1,
    nextAttemptAtMs := now2 + min 20000 (500 * 2 ^ (meta.attempts + 1)) }

/-- `batcherTick(stopAtMs)`.  The model treats one tick as atomic (the single
in-flight latch of the script serializes ticks; no intake callback is
interleaved here).  `now` is the `nowMs()` reading at the top of the tick and
`now2` the reading used by the post-fetch processing; `net` is the transport
oracle for this tick's `fetchEnhancedBatch` call.  The latch is set before the
awaited call and cleared in `finally`, so it ends as it began. -/
def batcherTick (cfg : Config) (s : St) (stopAtMs now now2 : Nat)
    (net : Nat → NetResult) : St :=
  if s.inFlight then s
  else if s.pending.length = 0 then s
  else if stopAtMs ≤ now then s
  else
    let sel := selectReadyBatch cfg s.pending s.pendingOrder s.scanIdx now
    let sigs := sel.1
    let s := { s with scanIdx := sel.2.1 }
    if sigs.length = 0 then s
    else
      match fetchEnhancedBatch sigs net with
      | Except.ok enhanced =>
        let bySig := indexBySig enhanced
        sigs.foldl (fun st sig => processSig cfg st sig (mapLookup bySig sig) now2) s
      | Except.error e => failRescheduleTick s e sigs now2

/-! ## Durable log and snapshot writer -/

/-- A filesystem operation, for embedding the snapshot writer's effect. -/
inductive FsOp where
  | writeFile (path content : String)
  | renameFile (src dst : String)
deriving DecidableEq

def jsonNat (n : Nat) : String := toString n

def jsonInt (i : Int) : String := toString i

def jsonOptStr : Option String → String
  | none => "null"
  | some s => jsonStr s

/-- Sort key of the fingerprint summary rows: `maxStableRaw` descending, then
`count` descending. -/
def fpRowLe (a b : FpStat) : Bool :=
  if a.maxStableRaw = b.maxStableRaw then b.count ≤ a.count
  else b.maxStableRaw < a.maxStableRaw

/-- Sort key of the program summary rows: `totalStableRaw` descending, then
`count` descending. -/
def progRowLe (a b : ProgStat) : Bool :=
  if a.totalStableRaw = b.totalStableRaw then b.count ≤ a.count
  else b.totalStableRaw < a.totalStableRaw

def insertSortedBy {α : Type} (le : α → α → Bool) (a : α) : List α → List α
  | [] => [a]
  | b :: bs => if le a b then a :: b :: bs else b :: insertSortedBy le a bs

def sortBy {α : Type} (le : α → α → Bool) (l : List α) : List α :=
  l.foldr (insertSortedBy le) []

def jsonFpRow (s : FpStat) : String :=
  "\x7b\"fingerprint\":" ++ jsonStr s.fingerprint ++
  ",\"count\":" ++ jsonNat s.count ++
  ",\"uniqueFeePayers\":" ++ jsonNat s.uniqueFeePayers.length ++
  ",\"totalFeeLamports\":" ++ jsonStr (jsonInt s.totalFeeLamports) ++
  ",\"totalJitoTipLamports\":" ++ jsonStr (jsonInt s.totalJitoTipLamports) ++
  ",\"totalStableRaw\":" ++ jsonStr (jsonInt s.totalStableRaw) ++
  ",\"maxStableRaw\":" ++ jsonStr (jsonInt s.maxStableRaw) ++
  ",\"exampleTypeSource\":" ++ jsonOptStr s.exampleTypeSource ++
  ",\"exampleSignatures\":" ++ jsonStrArray s.exampleSignatures ++
  ",\"examplePrograms\":" ++ jsonStrArray s.examplePrograms ++
  ",\"exampleMints\":" ++ jsonStrArray s.exampleMints ++ "\x7d"

def jsonProgRow (p : ProgStat) : String :=
  "\x7b\"programId\":" ++ jsonStr p.programId ++
  ",\"count\":" ++ jsonNat p.count ++
  ",\"totalFeeLamports\":" ++ jsonStr (jsonInt p.totalFeeLamports) ++
  ",\"totalJitoTipLamports\":" ++ jsonStr (jsonInt p.totalJitoTipLamports) ++
  ",\"totalStableRaw\":" ++ jsonStr (jsonInt p.totalStableRaw) ++
  ",\"maxStableRaw\":" ++ jsonStr (jsonInt p.maxStableRaw) ++ "\x7d"

/-- The serialized snapshot: schema, generation time, config echo, the nine
operational counters, and the two sorted, truncated top lists.  (The model
serializes compactly; the script passes an indent of 2 to `JSON.stringify`,
a whitespace-only difference.) -/
def summaryJson (cfg : Config) (s : St) (generatedAt : String) : String :=
  let fps := sortBy fpRowLe (s.fpStats.map (fun p => p.2))
  let progs := sortBy progRowLe (s.programStats.map (fun p => p.2))
  "\x7b\"schema\":\"alpha_mev_surface_summary_v2\"" ++
  ",\"generatedAt\":" ++ jsonStr generatedAt ++
  ",\"config\":\x7b\"batchSize\":" ++ jsonNat cfg.batchSize ++
  ",\"batchIntervalMs\":" ++ jsonNat cfg.batchIntervalMs ++
  ",\"initialDelayMs\":" ++ jsonNat cfg.initialDelayMs ++
  ",\"maxMissingRetries\":" ++ jsonNat cfg.maxMissingRetries ++
  ",\"maxPending\":" ++ jsonNat cfg.maxPending ++ "\x7d" ++
  ",\"counters\":\x7b\"ingested\":" ++ jsonNat s.ingested ++
  ",\"sampledOut\":" ++ jsonNat s.sampledOut ++
  ",\"evicted\":" ++ jsonNat s.evicted ++
  ",\"processed\":" ++ jsonNat s.processed ++
  ",\"droppedMissing\":" ++ jsonNat s.droppedMissing ++
  ",\"enhancedMissing\":" ++ jsonNat s.enhancedMissing ++
  ",\"enhancedRateLimited\":" ++ jsonNat s.enhancedRateLimited ++
  ",\"enhancedOtherErrors\":" ++ jsonNat s.enhancedOtherErrors ++
  ",\"pending\":" ++ jsonNat s.pending.length ++ "\x7d" ++
  ",\"topFingerprintsByMaxStable\":[" ++
    String.intercalate "," ((fps.take 50).map jsonFpRow) ++ "]" ++
  ",\"topProgramsByTotalStable\":[" ++
    String.intercalate "," ((progs.take 50).map jsonProgRow) ++ "]" ++ "\x7d"

/-- The filesystem effect of `writeSummary()`: a single
`fs.writeFileSync(SUMMARY_FILE, JSON.stringify(summary, null, 2))`. -/
def writeSummaryOps (summaryFile : String) (cfg : Config) (s : St)
    (generatedAt : String) : List FsOp :=
  [FsOp.writeFile summaryFile (summaryJson cfg s generatedAt)]

/-- Modelled from the spec: the write-to-temp-then-rename pattern the spec
asserts for the snapshot writer ("overwriting the previous snapshot
atomically (write-to-temp-then-rename)").  This definition follows the
spec's words, for comparison with `writeSummaryOps`, which is translated
from the source. -/
def atomicReplacePattern (snapshotPath : String) (ops : List FsOp) : Prop :=
  ∃ tmp content, tmp ≠ snapshotPath ∧
    ops = [FsOp.writeFile tmp content, FsOp.renameFile tmp snapshotPath]

/-! ## Concrete fixtures

Inputs used by the witness and counterexample theorems below: small
configurations the script can be launched with, intake events, enhanced
transaction objects, and transport oracles. -/

/-- Batch size 1, no initial delay, defaults elsewhere. -/
def cfgB1 : Config :=
  { batchSize := 1, batchIntervalMs := 500, initialDelayMs := 0,
    maxMissingRetries := 6, maxPending := 1000, ingressSamplePct := 1,
    storeEnhanced := false }

/-- Batch size 2 (for the wraparound duplication scenario). -/
def cfgB2 : Config := { cfgB1 with batchSize := 2 }

/-- Max missing retries 1 (for the missing-drop scenario). -/
def cfgM1 : Config := { cfgB1 with maxMissingRetries := 1 }

/-- Sampling percentage 0. -/
def cfgP0 : Config :=
  { batchSize := 100, batchIntervalMs := 500, initialDelayMs := 1500,
    maxMissingRetries := 6, maxPending := 50000, ingressSamplePct := 0,
    storeEnhanced := false }

/-- A toy capacity-2 configuration, exercising eviction with a short trace
(the script itself clamps `MAX_PENDING` to at least 1000; the capacity bound
theorem only needs `1 ≤ maxPending`). -/
def cfgCap2 : Config := { cfgB1 with maxPending := 2, initialDelayMs := 1500 }

def evA : IngestEv := { sig := "A", hintSlot := none, source := none, draw := 0, now := 10 }

def evB : IngestEv := { sig := "B", hintSlot := none, source := none, draw := 0, now := 11 }

def evC : IngestEv := { sig := "C", hintSlot := none, source := none, draw := 0, now := 12 }

/-- Event `B` with a strictly positive sampling draw. -/
def evBHalf : IngestEv := { sig := "B", hintSlot := none, source := none, draw := 1 / 2, now := 10 }

/-- A token balance change giving owner `payer1` a +250 USDC delta. -/
def tbcUsdc : TokenBalanceChange :=
  { userAccount := some "payer1",
    mint := some "EPjFWdd5AufqSSqeM2qN1xzybapC8G4wEGGkZwyTDt1v",
    rawTokenAmount := some { tokenAmount := some "250", decimals := some 6 } }

/-- Account data carrying a +777 lamport change on a Jito tip account plus
the USDC balance change. -/
def adTip : AccountData :=
  { account := some "ADaUMid9yfUytqMBgopwjb2DTLSokTSzL1zt6iGPaS49",
    nativeBalanceChange := some 777, tokenBalanceChanges := some [tbcUsdc] }

/-- An enhanced transaction for signature `A` with economic evidence. -/
def enhA : Enh :=
  { signature := some "A", fee := some 5000, feePayer := some "payer1",
    slot := some 100, timestamp := some 1700, type := some "SWAP",
    source := some "JUPITER", description := none,
    instructions := some [{ programId := some "progX", innerInstructions := none }],
    accountData := some [adTip], tokenTransfers := none, events := none }

/-- An enhanced transaction for signature `A` with no tip and no stable
delta: no economic evidence. -/
def enhNoEv : Enh :=
  { signature := some "A", fee := some 5000, feePayer := some "payer1",
    slot := some 100, timestamp := some 1700, type := some "TRANSFER",
    source := some "SYSTEM", description := none,
    instructions := some [{ programId := some "progX", innerInstructions := none }],
    accountData := none, tokenTransfers := none, events := none }

/-- 32 program identifiers that sort before `z1` and `z2`. -/
def progsCommon : List String :=
  ["b10", "b11", "b12", "b13", "b14", "b15", "b16", "b17",
   "b18", "b19", "b20", "b21", "b22", "b23", "b24", "b25",
   "b26", "b27", "b28", "b29", "b30", "b31", "b32", "b33",
   "b34", "b35", "b36", "b37", "b38", "b39", "b40", "b41"]

def instrsOf (ps : List String) : List Instr :=
  ps.map (fun p => { programId := some p, innerInstructions := none })

/-- 33 interesting programs, the last being `z1`. -/
def enhC7A : Enh :=
  { signature := some "A", fee := some 5000, feePayer := some "payer1",
    slot := some 100, timestamp := some 1700, type := some "SWAP",
    source := some "X", description := none,
    instructions := some (instrsOf (progsCommon ++ ["z1"])),
    accountData := none, tokenTransfers := none, events := none }

/-- Same as `enhC7A` except the 33rd program is `z2`. -/
def enhC7B : Enh :=
  { signature := some "A", fee := some 5000, feePayer := some "payer1",
    slot := some 100, timestamp := some 1700, type := some "SWAP",
    source := some "X", description := none,
    instructions := some (instrsOf (progsCommon ++ ["z2"])),
    accountData := none, tokenTransfers := none, events := none }

/-- Same as `enhC7A` except for the fee — the fee is not a fingerprint
input. -/
def enhC7Fee : Enh := { enhC7A with fee := some 9999 }

/-- Transport oracle: every attempt is rate limited. -/
def netAll429 : Nat → NetResult := fun _ => NetResult.rateLimited

/-- Transport oracle: every attempt fails with HTTP 500. -/
def netErr500 : Nat → NetResult := fun _ => NetResult.otherError (some 500) "HTTP 500"

/-- Transport oracle: the call succeeds and resolves signature `A`. -/
def netOkA : Nat → NetResult := fun _ => NetResult.success (some [enhA])

/-- Transport oracle: the call succeeds with an empty response. -/
def netOkEmpty : Nat → NetResult := fun _ => NetResult.success (some [])

/-- State with A pending (ready immediately, batch size 1 config). -/
def stA : St := tryIngestSignature cfgB1 initSt "A" none none 0 10

/-- The pending entry for `A` in `stA`. -/
def entryA0 : PendingEntry :=
  { seenAtMs := 10, hintSlot := none, attempts := 0, nextAttemptAtMs := 10, source := none }

/-- `entryA0` after one missing outcome at time 25. -/
def entryA1 : PendingEntry :=
  { seenAtMs := 10, hintSlot := none, attempts := 1, nextAttemptAtMs := 1025, source := none }

/-- State after A has been enriched and processed once. -/
def stAfterA : St := batcherTick cfgB1 stA 1000000 20 25 netOkA

/-! ## Lemmas about the insertion-ordered maps -/

theorem mapLookup_mapSet_self {β : Type} (m : List (String × β)) (k : String) (v : β) :
    mapLookup (mapSet m k v) k = some v := by
  induction m with
  | nil => simp [mapSet, mapLookup]
  | cons p t ih =>
    by_cases h : p.1 = k
    · simp [mapSet, h, mapLookup]
    · simpa [mapSet, h, mapLookup] using ih

theorem mapLookup_mapSet_ne {β : Type} (m : List (String × β)) (k k' : String) (v : β)
    (h : k' ≠ k) : mapLookup (mapSet m k v) k' = mapLookup m k' := by
  induction m with
  | nil => simp [mapSet, mapLookup, Ne.symm h]
  | cons p t ih =>
    by_cases hp : p.1 = k
    · subst hp
      have hne : ¬ p.1 = k' := fun hh => h hh.symm
      simp [mapSet, mapLookup, hne]
    · simp only [mapSet, if_neg hp, mapLookup]
      by_cases hp' : p.1 = k'
      · rw [if_pos hp', if_pos hp']
      · rw [if_neg hp', if_neg hp', ih]

theorem mapHas_cons_parts {β : Type} (p : String × β) (t : List (String × β)) (k : String)
    (h : mapHas (p :: t) k = false) : ¬ p.1 = k ∧ mapHas t k = false := by
  unfold mapHas at h
  rw [List.any_cons] at h
  have h2 := h
  constructor
  · intro hp
    rw [decide_eq_true hp] at h
    simp at h
  · unfold mapHas
    cases hb : t.any (fun q => decide (q.1 = k)) with
    | false => rfl
    | true => rw [hb] at h2; simp at h2

theorem mapHas_false_lookup {β : Type} (m : List (String × β)) (k : String)
    (h : mapHas m k = false) : mapLookup m k = none := by
  induction m with
  | nil => rfl
  | cons p t ih =>
    have hp := mapHas_cons_parts p t k h
    simp only [mapLookup, if_neg hp.1]
    exact ih hp.2

theorem mapSet_of_not_has {β : Type} (m : List (String × β)) (k : String) (v : β)
    (h : mapHas m k = false) : mapSet m k v = m ++ [(k, v)] := by
  induction m with
  | nil => rfl
  | cons p t ih =>
    have hp := mapHas_cons_parts p t k h
    simp only [mapSet, if_neg hp.1]
    simp [ih hp.2]

theorem mapDelete_cons_self {β : Type} (k : String) (v : β) (t : List (String × β)) :
    mapDelete ((k, v) :: t) k = (t, true) := by
  simp [mapDelete]

theorem mapHas_false_of_not_mem_keys {β : Type} (m : List (String × β)) (k : String)
    (h : k ∉ m.map Prod.fst) : mapHas m k = false := by
  induction m with
  | nil => rfl
  | cons p t ih =>
    simp only [List.map_cons, List.mem_cons, not_or] at h
    have ht := ih h.2
    simp only [mapHas, List.any_cons]
    rw [decide_eq_false (fun hh => h.1 hh.symm)]
    simpa [mapHas] using ht

theorem mapLookup_mapDelete_self {β : Type} (m : List (String × β)) (k : String)
    (h : (m.map Prod.fst).Nodup) : mapLookup (mapDelete m k).1 k = none := by
  induction m with
  | nil => rfl
  | cons p t ih =>
    simp only [List.map_cons, List.nodup_cons] at h
    by_cases hp : p.1 = k
    · subst hp
      simp only [mapDelete, if_pos rfl]
      exact mapHas_false_lookup t p.1 (mapHas_false_of_not_mem_keys t p.1 h.1)
    · simp only [mapDelete, if_neg hp, mapLookup, if_neg hp]
      exact ih h.2

theorem mapLookup_mapDelete_ne {β : Type} (m : List (String × β)) (k k' : String)
    (h : k' ≠ k) : mapLookup (mapDelete m k).1 k' = mapLookup m k' := by
  induction m with
  | nil => rfl
  | cons p t ih =>
    by_cases hp : p.1 = k
    · subst hp
      have hne : ¬ p.1 = k' := fun hh => h hh.symm
      simp [mapDelete, mapLookup, hne]
    · simp only [mapDelete, if_neg hp, mapLookup]
      by_cases hp' : p.1 = k'
      · rw [if_pos hp', if_pos hp']
      · rw [if_neg hp', if_neg hp']
        exact ih

theorem mapSet_keys_of_has {β : Type} (m : List (String × β)) (k : String) (v : β)
    (h : mapHas m k = true) : (mapSet m k v).map Prod.fst = m.map Prod.fst := by
  induction m with
  | nil => simp [mapHas] at h
  | cons p t ih =>
    by_cases hp : p.1 = k
    · simp [mapSet, hp]
    · have ht : mapHas t k = true := by
        rcases (by simpa [mapHas, List.any_cons] using h : p.1 = k ∨ mapHas t k = true) with
          hc | hc
        · exact absurd hc hp
        · exact hc
      simp [mapSet, hp, ih ht]

theorem mapHas_of_lookup_some {β : Type} (m : List (String × β)) (k : String) (v : β)
    (h : mapLookup m k = some v) : mapHas m k = true := by
  induction m with
  | nil => simp [mapLookup] at h
  | cons p t ih =>
    simp only [mapLookup] at h
    by_cases hp : p.1 = k
    · simp [mapHas, hp]
    · rw [if_neg hp] at h
      have := ih h
      simp only [mapHas, List.any_cons]
      simpa [mapHas] using Or.inr this

/-! ## Positional list lemmas -/

theorem listAt_of_drop_cons {α : Type} (l : List α) (i : Nat) (a : α) (t : List α)
    (h : l.drop i = a :: t) : listAt l i = some a := by
  induction l generalizing i with
  | nil => simp at h
  | cons b bs ih =>
    cases i with
    | zero => simp only [List.drop_zero] at h; cases h; rfl
    | succ j => exact ih j (by simpa using h)

theorem drop_succ_of_drop_cons {α : Type} (l : List α) (i : Nat) (a : α) (t : List α)
    (h : l.drop i = a :: t) : l.drop (i + 1) = t := by
  induction l generalizing i with
  | nil => simp at h
  | cons b bs ih =>
    cases i with
    | zero => simp only [List.drop_zero] at h; cases h; simp
    | succ j => exact ih j (by simpa using h)

theorem lt_length_of_drop_cons {α : Type} (l : List α) (i : Nat) (a : α) (t : List α)
    (h : l.drop i = a :: t) : i < l.length := by
  by_contra hc
  rw [List.drop_eq_nil_of_le (Nat.le_of_not_lt hc)] at h
  exact List.noConfusion h

theorem drop_append_single {α : Type} (l : List α) (a : α) (i : Nat)
    (h : i ≤ l.length) : (l ++ [a]).drop i = l.drop i ++ [a] := by
  rw [List.drop_append_eq_append_drop]
  rcases Nat.eq_or_lt_of_le h with h' | h'
  · simp [h']
  · simp [Nat.sub_eq_zero_of_le (Nat.le_of_lt h')]

/-! ## `sortUnique` produces duplicate-free lists -/

theorem insertSorted_perm (a : String) (l : List String) :
    List.Perm (insertSorted a l) (a :: l) := by
  induction l with
  | nil => exact List.Perm.refl _
  | cons b bs ih =>
    by_cases hab : jsStrLt a b = true
    · simp [insertSorted, hab]
    · simp only [insertSorted, hab, if_false]
      exact List.Perm.trans (List.Perm.cons b ih) (List.Perm.swap a b bs)

theorem sortStrings_perm (l : List String) : List.Perm (sortStrings l) l := by
  induction l with
  | nil => exact List.Perm.refl _
  | cons a as ih =>
    have h1 : sortStrings (a :: as) = insertSorted a (sortStrings as) := rfl
    rw [h1]
    exact List.Perm.trans (insertSorted_perm a (sortStrings as)) (List.Perm.cons a ih)

theorem dedupSeen_nodup_and_fresh (l : List String) :
    ∀ seen : List String, (dedupSeen seen l).Nodup ∧ ∀ x ∈ dedupSeen seen l, x ∉ seen := by
  induction l with
  | nil =>
    intro seen
    constructor
    · exact List.nodup_nil
    · intro x hx
      simp [dedupSeen] at hx
  | cons a as ih =>
    intro seen
    cases hc : seen.contains a with
    | true =>
      have hmem : a ∈ seen := by simpa using hc
      have hthis := ih seen
      constructor
      · simpa [dedupSeen, hmem] using hthis.1
      · intro x hx
        exact hthis.2 x (by simpa [dedupSeen, hmem] using hx)
    | false =>
      have hrec := ih (a :: seen)
      have hne : a ∉ seen := by simpa using hc
      have h1 : dedupSeen seen (a :: as) = a :: dedupSeen (a :: seen) as := by
        simp [dedupSeen, hne]
      constructor
      · rw [h1, List.nodup_cons]
        exact ⟨fun hmem => (hrec.2 a hmem) (List.mem_cons_self a seen), hrec.1⟩
      · rw [h1]
        intro x hx
        rcases List.mem_cons.mp hx with hx | hx
        · subst hx
          exact hne
        · exact fun hxs => (hrec.2 x hx) (List.mem_cons_of_mem a hxs)

theorem dedupFirst_nodup (l : List String) : (dedupFirst l).Nodup :=
  (dedupSeen_nodup_and_fresh l []).1

theorem sortUnique_nodup (l : List String) : (sortUnique l).Nodup :=
  (sortStrings_perm (dedupFirst l)).nodup_iff.mpr (dedupFirst_nodup l)

/-! ## The intake invariant (claim C1)

In a state reached by `tryIngestSignature` calls alone, the suffix of the
insertion log `pendingOrder` from the eviction cursor on is exactly the key
sequence of the pending map (in particular every position the eviction scan
can still visit holds a live signature, in map insertion order), the cursor
never passes the end of the log, and the buffer size never exceeds
`MAX_PENDING`. -/

def IngestInv (cfg : Config) (s : St) : Prop :=
  s.pendingOrder.drop s.evictIdx = s.pending.map Prod.fst ∧
  s.evictIdx ≤ s.pendingOrder.length ∧
  s.pending.length ≤ cfg.maxPending

theorem ingestInv_init (cfg : Config) : IngestInv cfg initSt :=
  ⟨rfl, Nat.le_refl 0, Nat.zero_le _⟩

theorem evictLoop_at_head (order : List String) (i ev : Nat) (k : String)
    (e : PendingEntry) (rest : List (String × PendingEntry))
    (hi : i < order.length) (hk : listAt order i = some k) :
    evictLoop order ((k, e) :: rest) i ev = (rest, i + 1, ev + 1) := by
  rw [evictLoop]
  rw [dif_pos hi, hk]
  simp [mapDelete_cons_self]

theorem evictStep_below (cfg : Config) (s : St) (h : ¬ cfg.maxPending ≤ s.pending.length) :
    evictStep cfg s = ⟨s.pending, s.evictIdx, s.evicted, s.pendingOrder, s.scanIdx⟩ := by
  unfold evictStep
  rw [if_neg h]

/-- At capacity, the eviction scan removes exactly the head of the pending
map (the oldest still-present entry in insertion order), bumps `evicted`, and
the invariant equations carry over to the post-eviction buffer variables. -/
theorem evictStep_at_cap (cfg : Config) (s : St) (hInv : IngestInv cfg s)
    (hmp : 1 ≤ cfg.maxPending) (hcap : cfg.maxPending ≤ s.pending.length) :
    ∃ k e0 rest, s.pending = (k, e0) :: rest ∧
      (evictStep cfg s).pending = rest ∧
      (evictStep cfg s).evicted = s.evicted + 1 ∧
      (evictStep cfg s).order.drop (evictStep cfg s).evictIdx = rest.map Prod.fst ∧
      (evictStep cfg s).evictIdx ≤ (evictStep cfg s).order.length := by
  have hne : s.pending ≠ [] := by
    intro hnil
    rw [hnil] at hcap
    simp at hcap
    omega
  obtain ⟨p, rest, hp⟩ := List.exists_cons_of_ne_nil hne
  obtain ⟨k, e0⟩ := p
  have hkeys : s.pendingOrder.drop s.evictIdx = k :: rest.map Prod.fst := by
    rw [hInv.1, hp]
    rfl
  have hi : s.evictIdx < s.pendingOrder.length :=
    lt_length_of_drop_cons _ _ _ _ hkeys
  have hAt : listAt s.pendingOrder s.evictIdx = some k :=
    listAt_of_drop_cons _ _ _ _ hkeys
  have hdropS : s.pendingOrder.drop (s.evictIdx + 1) = rest.map Prod.fst :=
    drop_succ_of_drop_cons _ _ _ _ hkeys
  have hLoop : evictLoop s.pendingOrder s.pending s.evictIdx s.evicted =
      (rest, s.evictIdx + 1, s.evicted + 1) := by
    rw [hp]
    exact evictLoop_at_head _ _ _ _ _ _ hi hAt
  refine ⟨k, e0, rest, hp, ?_⟩
  unfold evictStep
  rw [if_pos hcap, hLoop]
  by_cases hcomp : 50000 < s.evictIdx + 1 ∧ s.pendingOrder.length < 2 * (s.evictIdx + 1)
  · rw [if_pos hcomp]
    exact ⟨rfl, rfl, by simpa using hdropS, Nat.zero_le _⟩
  · rw [if_neg hcomp]
    exact ⟨rfl, rfl, hdropS, hi⟩

/-- The full `tryIngestSignature` case analysis for an accepted signature:
the invariant is preserved and, at capacity, the evicted entry is exactly the
oldest live entry (the head of the insertion-ordered pending map). -/
theorem ingest1_inv (cfg : Config) (hmp : 1 ≤ cfg.maxPending) (s : St)
    (hInv : IngestInv cfg s) (ev : IngestEv) : IngestInv cfg (ingest1 cfg s ev) := by
  unfold ingest1 tryIngestSignature
  by_cases h1 : ev.sig = ""
  · rw [if_pos h1]
    exact hInv
  rw [if_neg h1]
  by_cases h2 : mapHas s.pending ev.sig = true
  · rw [if_pos h2]
    exact hInv
  rw [if_neg h2]
  have h2f : mapHas s.pending ev.sig = false := by
    cases hb : mapHas s.pending ev.sig with
    | false => rfl
    | true => exact absurd hb h2
  by_cases h3 : cfg.ingressSamplePct < 1 ∧ cfg.ingressSamplePct < ev.draw
  · rw [if_pos h3]
    exact hInv
  rw [if_neg h3]
  by_cases hcap : cfg.maxPending ≤ s.pending.length
  · obtain ⟨k, e0, rest, hp, hpend, hev, hdrop, hle⟩ := evictStep_at_cap cfg s hInv hmp hcap
    have hrestHas : mapHas rest ev.sig = false := by
      have := mapHas_cons_parts (k, e0) rest ev.sig (by rw [hp] at h2f; exact h2f)
      exact this.2
    refine ⟨?_, ?_, ?_⟩
    · show ((evictStep cfg s).order ++ [ev.sig]).drop (evictStep cfg s).evictIdx =
        (mapSet (evictStep cfg s).pending ev.sig _).map Prod.fst
      rw [drop_append_single _ _ _ hle, hdrop, hpend,
        mapSet_of_not_has _ _ _ hrestHas, List.map_append]
      rfl
    · show (evictStep cfg s).evictIdx ≤ ((evictStep cfg s).order ++ [ev.sig]).length
      rw [List.length_append]
      exact Nat.le_trans hle (Nat.le_add_right _ _)
    · show (mapSet (evictStep cfg s).pending ev.sig _).length ≤ cfg.maxPending
      rw [hpend, mapSet_of_not_has _ _ _ hrestHas, List.length_append]
      have hlen : s.pending.length = rest.length + 1 := by
        rw [hp]
        rfl
      have hb := hInv.2.2
      simp only [List.length_singleton]
      omega
  · rw [evictStep_below cfg s hcap]
    refine ⟨?_, ?_, ?_⟩
    · show (s.pendingOrder ++ [ev.sig]).drop s.evictIdx =
        (mapSet s.pending ev.sig _).map Prod.fst
      rw [drop_append_single _ _ _ hInv.2.1, hInv.1,
        mapSet_of_not_has _ _ _ h2f, List.map_append]
      rfl
    · show s.evictIdx ≤ (s.pendingOrder ++ [ev.sig]).length
      rw [List.length_append]
      exact Nat.le_trans hInv.2.1 (Nat.le_add_right _ _)
    · show (mapSet s.pending ev.sig _).length ≤ cfg.maxPending
      rw [mapSet_of_not_has _ _ _ h2f, List.length_append]
      have : s.pending.length < cfg.maxPending := Nat.lt_of_not_le hcap
      simpa using this

theorem runIngests_inv (cfg : Config) (hmp : 1 ≤ cfg.maxPending) (s : St)
    (hInv : IngestInv cfg s) (evs : List IngestEv) :
    IngestInv cfg (runIngests cfg s evs) := by
  induction evs generalizing s with
  | nil => exact hInv
  | cons ev rest ih => exact ih _ (ingest1_inv cfg hmp s hInv ev)

/-- Acceptance at capacity: the state after the call drops the head entry of
the pending map, appends the new entry, and bumps both `evicted` and
`ingested`. -/
theorem ingest1_at_cap_char (cfg : Config) (hmp : 1 ≤ cfg.maxPending) (s : St)
    (hInv : IngestInv cfg s) (ev : IngestEv) (h1 : ev.sig ≠ "")
    (h2 : mapHas s.pending ev.sig = false) (h3 : ¬(cfg.ingressSamplePct < 1 ∧ cfg.ingressSamplePct < ev.draw))
    (hcap : cfg.maxPending ≤ s.pending.length) :
    ∃ k e0 rest, s.pending = (k, e0) :: rest ∧
      (ingest1 cfg s ev).pending =
        rest ++ [(ev.sig, newEntry cfg ev.hintSlot ev.source ev.now)] ∧
      (ingest1 cfg s ev).evicted = s.evicted + 1 ∧
      (ingest1 cfg s ev).ingested = s.ingested + 1 := by
  obtain ⟨k, e0, rest, hp, hpend, hev, hdrop, hle⟩ := evictStep_at_cap cfg s hInv hmp hcap
  have hrestHas : mapHas rest ev.sig = false := by
    have := mapHas_cons_parts (k, e0) rest ev.sig (by rw [hp] at h2; exact h2)
    exact this.2
  refine ⟨k, e0, rest, hp, ?_, ?_, ?_⟩
  · show (ingest1 cfg s ev).pending = _
    unfold ingest1 tryIngestSignature
    rw [if_neg h1, if_neg (by simp [h2]), if_neg h3]
    show mapSet (evictStep cfg s).pending ev.sig _ = _
    rw [hpend, mapSet_of_not_has _ _ _ hrestHas]
  · unfold ingest1 tryIngestSignature
    rw [if_neg h1, if_neg (by simp [h2]), if_neg h3]
    exact hev
  · unfold ingest1 tryIngestSignature
    rw [if_neg h1, if_neg (by simp [h2]), if_neg h3]

/-! ## Sampling lemmas (claim C6) -/

theorem ingest1_p0_skip (cfg : Config) (hp : cfg.ingressSamplePct = 0) (s : St)
    (ev : IngestEv) (hd : 0 < ev.draw) :
    (ingest1 cfg s ev).ingested = s.ingested ∧ (ingest1 cfg s ev).pending = s.pending := by
  unfold ingest1 tryIngestSignature
  by_cases h1 : ev.sig = ""
  · rw [if_pos h1]
    exact ⟨rfl, rfl⟩
  rw [if_neg h1]
  by_cases h2 : mapHas s.pending ev.sig = true
  · rw [if_pos h2]
    exact ⟨rfl, rfl⟩
  rw [if_neg h2]
  rw [if_pos ⟨by rw [hp]; norm_num, by rw [hp]; exact hd⟩]
  exact ⟨rfl, rfl⟩

theorem runIngests_p0_skip (cfg : Config) (hp : cfg.ingressSamplePct = 0) (s : St)
    (evs : List IngestEv) (hd : ∀ e ∈ evs, 0 < e.draw) :
    (runIngests cfg s evs).ingested = s.ingested := by
  induction evs generalizing s with
  | nil => rfl
  | cons ev rest ih =>
    have h1 := ingest1_p0_skip cfg hp s ev (hd ev (List.mem_cons_self ev rest))
    have h2 := ih (ingest1 cfg s ev) (fun e he => hd e (List.mem_cons_of_mem ev he))
    unfold runIngests at h2 ⊢
    rw [List.foldl_cons, h2, h1.1]

theorem ingest1_p1_accepts (cfg : Config) (hp : cfg.ingressSamplePct = 1) (s : St)
    (ev : IngestEv) (h1 : ev.sig ≠ "") (h2 : mapHas s.pending ev.sig = false) :
    (ingest1 cfg s ev).ingested = s.ingested + 1 ∧
    mapLookup (ingest1 cfg s ev).pending ev.sig =
      some (newEntry cfg ev.hintSlot ev.source ev.now) := by
  unfold ingest1 tryIngestSignature
  rw [if_neg h1, if_neg (by simp [h2]), if_neg (by rw [hp]; intro hcon; exact absurd hcon.1 (lt_irrefl 1))]
  exact ⟨rfl, mapLookup_mapSet_self _ _ _⟩

/-! ## Enrichment-retry lemmas (claim C2) -/

theorem fetchLoop_all_backoff (net : Nat → NetResult) :
    ∀ (fuel a : Nat),
      (∀ i, a ≤ i → i < a + fuel →
        net i = NetResult.rateLimited ∨ net i = NetResult.timeout) →
      fetchLoop net a fuel = Except.ok [] := by
  intro fuel
  induction fuel with
  | zero => intro a _; rfl
  | succ f ih =>
    intro a h
    have h0 := h a (Nat.le_refl a) (by omega)
    have hrec := ih (a + 1) (fun i hi1 hi2 => h i (by omega) (by omega))
    rcases h0 with h0 | h0
    · rw [fetchLoop, h0]
      exact hrec
    · rw [fetchLoop, h0]
      exact hrec

/-! ## Missing-path lemmas (claim C3) -/

theorem processSig_skip_eq (cfg : Config) (s : St) (sig : String)
    (enh? : Option Enh) (now2 : Nat) (hl : mapLookup s.pending sig = none) :
    processSig cfg s sig enh? now2 = s := by
  unfold processSig
  rw [hl]

theorem processSig_missing_eq (cfg : Config) (s : St) (sig : String)
    (meta : PendingEntry) (now2 : Nat) (hl : mapLookup s.pending sig = some meta) :
    processSig cfg s sig none now2 =
      if cfg.maxMissingRetries < meta.attempts + 1 then
        { s with enhancedMissing := s.enhancedMissing + 1,
                 pending := (mapDelete s.pending sig).1,
                 droppedMissing := s.droppedMissing + 1 }
      else
        { s with enhancedMissing := s.enhancedMissing + 1,
                 pending := (mapSet s.pending sig (missRetryEntry meta now2)) } := by
  unfold processSig
  rw [hl]
  rfl

theorem processSig_some_eq (cfg : Config) (s : St) (sig : String)
    (meta : PendingEntry) (enh : Enh) (now2 : Nat)
    (hl : mapLookup s.pending sig = some meta) :
    processSig cfg s sig (some enh) now2 = processEnh cfg s sig meta enh now2 := by
  unfold processSig
  rw [hl]

theorem processSig_missing_drop (cfg : Config) (s : St) (sig : String)
    (meta : PendingEntry) (now2 : Nat)
    (hl : mapLookup s.pending sig = some meta)
    (hnodup : (s.pending.map Prod.fst).Nodup)
    (hgt : cfg.maxMissingRetries < meta.attempts + 1) :
    mapLookup (processSig cfg s sig none now2).pending sig = none ∧
    (processSig cfg s sig none now2).droppedMissing = s.droppedMissing + 1 ∧
    (processSig cfg s sig none now2).enhancedMissing = s.enhancedMissing + 1 := by
  rw [processSig_missing_eq cfg s sig meta now2 hl, if_pos hgt]
  exact ⟨mapLookup_mapDelete_self _ _ hnodup, rfl, rfl⟩

theorem processSig_missing_retry (cfg : Config) (s : St) (sig : String)
    (meta : PendingEntry) (now2 : Nat)
    (hl : mapLookup s.pending sig = some meta)
    (hle : ¬ cfg.maxMissingRetries < meta.attempts + 1) :
    mapLookup (processSig cfg s sig none now2).pending sig =
      some (missRetryEntry meta now2) ∧
    (processSig cfg s sig none now2).droppedMissing = s.droppedMissing ∧
    (processSig cfg s sig none now2).enhancedMissing = s.enhancedMissing + 1 ∧
    ((processSig cfg s sig none now2).pending.map Prod.fst = s.pending.map Prod.fst) := by
  rw [processSig_missing_eq cfg s sig meta now2 hl, if_neg hle]
  refine ⟨mapLookup_mapSet_self _ _ _, rfl, rfl, ?_⟩
  exact mapSet_keys_of_has _ _ _ (mapHas_of_lookup_some _ _ _ hl)

/-- Iterating the missing path while the per-item budget is not exhausted:
`attempts` counts the missing outcomes and nothing is dropped. -/
theorem processSig_missing_iter (cfg : Config) (sig : String) :
    ∀ (times : List Nat) (s : St) (meta : PendingEntry),
      mapLookup s.pending sig = some meta →
      (s.pending.map Prod.fst).Nodup →
      meta.attempts + times.length ≤ cfg.maxMissingRetries →
      ∃ m' : PendingEntry,
        mapLookup ((times.foldl (fun st t => processSig cfg st sig none t) s)).pending sig =
          some m' ∧
        m'.attempts = meta.attempts + times.length ∧
        ((times.foldl (fun st t => processSig cfg st sig none t) s)).droppedMissing =
          s.droppedMissing ∧
        ((times.foldl (fun st t => processSig cfg st sig none t) s)).pending.map Prod.fst =
          s.pending.map Prod.fst := by
  intro times
  induction times with
  | nil =>
    intro s meta hl hnd _
    exact ⟨meta, hl, by simp, rfl, rfl⟩
  | cons t ts ih =>
    intro s meta hl hnd hbound
    have hle : ¬ cfg.maxMissingRetries < meta.attempts + 1 := by
      simp only [List.length_cons] at hbound
      omega
    obtain ⟨hlook, hdrop, _hmiss, hkeys⟩ := processSig_missing_retry cfg s sig meta t hl hle
    have hnd1 : ((processSig cfg s sig none t).pending.map Prod.fst).Nodup := by
      rw [hkeys]; exact hnd
    have hatt : (missRetryEntry meta t).attempts = meta.attempts + 1 := rfl
    have hbound1 : (missRetryEntry meta t).attempts + ts.length ≤ cfg.maxMissingRetries := by
      rw [hatt]
      simp only [List.length_cons] at hbound
      omega
    obtain ⟨m', h1, h2, h3, h4⟩ :=
      ih (processSig cfg s sig none t) (missRetryEntry meta t) hlook hnd1 hbound1
    refine ⟨m', ?_, ?_, ?_, ?_⟩
    · simpa using h1
    · rw [hatt] at h2
      simp only [List.length_cons]
      omega
    · simpa [hdrop] using h3
    · simpa [hkeys] using h4

/-! ## Failure-path lemmas (claim C5) -/

theorem bumpNext_idem (t : Nat) (m : PendingEntry) :
    bumpNext t (bumpNext t m) = bumpNext t m := by
  unfold bumpNext
  simp [Nat.max_assoc]

theorem failStep_frame (t : Nat) (st : St) (sig : String) :
    (failStep t st sig).droppedMissing = st.droppedMissing ∧
    (failStep t st sig).fpStats = st.fpStats ∧
    (failStep t st sig).programStats = st.programStats ∧
    (failStep t st sig).log = st.log ∧
    (failStep t st sig).processed = st.processed ∧
    (failStep t st sig).ingested = st.ingested ∧
    (failStep t st sig).evicted = st.evicted ∧
    (failStep t st sig).droppedMissing = st.droppedMissing := by
  unfold failStep
  cases mapLookup st.pending sig with
  | none => exact ⟨rfl, rfl, rfl, rfl, rfl, rfl, rfl, rfl⟩
  | some meta => exact ⟨rfl, rfl, rfl, rfl, rfl, rfl, rfl, rfl⟩

theorem failFold_frame (t : Nat) (sigs : List String) :
    ∀ s : St,
      (sigs.foldl (failStep t) s).droppedMissing = s.droppedMissing ∧
      (sigs.foldl (failStep t) s).fpStats = s.fpStats ∧
      (sigs.foldl (failStep t) s).programStats = s.programStats ∧
      (sigs.foldl (failStep t) s).log = s.log ∧
      (sigs.foldl (failStep t) s).processed = s.processed ∧
      (sigs.foldl (failStep t) s).ingested = s.ingested ∧
      (sigs.foldl (failStep t) s).evicted = s.evicted := by
  induction sigs with
  | nil => intro s; exact ⟨rfl, rfl, rfl, rfl, rfl, rfl, rfl⟩
  | cons sig rest ih =>
    intro s
    have h1 := failStep_frame t s sig
    have h2 := ih (failStep t s sig)
    refine ⟨?_, ?_, ?_, ?_, ?_, ?_, ?_⟩
    · rw [List.foldl_cons, h2.1, h1.1]
    · rw [List.foldl_cons, h2.2.1, h1.2.1]
    · rw [List.foldl_cons, h2.2.2.1, h1.2.2.1]
    · rw [List.foldl_cons, h2.2.2.2.1, h1.2.2.2.1]
    · rw [List.foldl_cons, h2.2.2.2.2.1, h1.2.2.2.2.1]
    · rw [List.foldl_cons, h2.2.2.2.2.2.1, h1.2.2.2.2.2.1]
    · rw [List.foldl_cons, h2.2.2.2.2.2.2, h1.2.2.2.2.2.2.1]

theorem failFold_lookup (t : Nat) (sigs : List String) :
    ∀ (s : St) (k : String),
      mapLookup ((sigs.foldl (failStep t) s)).pending k =
        (mapLookup s.pending k).map (fun m => if k ∈ sigs then bumpNext t m else m) := by
  induction sigs with
  | nil =>
    intro s k
    cases h : mapLookup s.pending k <;> simp [h]
  | cons sig rest ih =>
    intro s k
    rw [List.foldl_cons, ih]
    by_cases hk : k = sig
    · subst hk
      cases hs : mapLookup s.pending k with
      | none =>
        have : failStep t s k = s := by unfold failStep; rw [hs]
        rw [this, hs]
        simp
      | some m =>
        have : mapLookup (failStep t s k).pending k = some (bumpNext t m) := by
          unfold failStep
          rw [hs]
          exact mapLookup_mapSet_self _ _ _
        rw [this]
        by_cases hr : k ∈ rest
        · simp [hr, bumpNext_idem]
        · simp [hr]
    · have : mapLookup (failStep t s sig).pending k = mapLookup s.pending k := by
        unfold failStep
        cases hs : mapLookup s.pending sig with
        | none => rfl
        | some m => exact mapLookup_mapSet_ne _ _ _ _ hk
      rw [this]
      cases hsk : mapLookup s.pending k with
      | none => simp
      | some m =>
        have hms : (k ∈ sig :: rest) = (k ∈ rest) := by
          simp [List.mem_cons, hk]
        simp [hms]

/-! ## Selection lemmas (claim C4) -/

theorem listAt_mem {α : Type} (l : List α) (i : Nat) (a : α)
    (h : listAt l i = some a) : a ∈ l := by
  induction l generalizing i with
  | nil => simp [listAt] at h
  | cons b bs ih =>
    cases i with
    | zero =>
      simp only [listAt] at h
      cases h
      exact List.mem_cons_self _ _
    | succ j => exact List.mem_cons_of_mem _ (ih j h)

theorem selectGo_zero_eq (pending : List (String × PendingEntry)) (order : List String)
    (batchSize now scanIdx scanned : Nat) (out : List String) :
    selectGo pending order batchSize now 0 scanIdx scanned out =
      (out.reverse, scanIdx, scanned) := by
  rw [selectGo]

theorem selectGo_stop_eq (pending : List (String × PendingEntry)) (order : List String)
    (batchSize now fuel scanIdx scanned : Nat) (out : List String)
    (hstop : batchSize ≤ out.length ∨ order.length = 0) :
    selectGo pending order batchSize now (fuel + 1) scanIdx scanned out =
      (out.reverse, scanIdx, scanned) := by
  rw [selectGo, if_pos hstop]

/-- One non-terminal loop iteration of `selectReadyBatch`, with the
wraparound-normalized cursor `scanIdx1` made explicit. -/
theorem selectGo_step (pending : List (String × PendingEntry)) (order : List String)
    (batchSize now fuel scanIdx scanned : Nat) (out : List String)
    (hstop : ¬(batchSize ≤ out.length ∨ order.length = 0)) (scanIdx1 : Nat)
    (hidx : scanIdx1 = if order.length ≤ scanIdx then 0 else scanIdx) :
    selectGo pending order batchSize now (fuel + 1) scanIdx scanned out =
      (match listAt order scanIdx1 with
       | none => selectGo pending order batchSize now fuel (scanIdx1 + 1) (scanned + 1) out
       | some sig =>
         match mapLookup pending sig with
         | none => selectGo pending order batchSize now fuel (scanIdx1 + 1) (scanned + 1) out
         | some meta =>
           if now < meta.nextAttemptAtMs then
             selectGo pending order batchSize now fuel (scanIdx1 + 1) (scanned + 1) out
           else
             selectGo pending order batchSize now fuel (scanIdx1 + 1) (scanned + 1)
               (sig :: out)) := by
  subst hidx
  rw [selectGo, if_neg hstop]

theorem selectGo_main (pending : List (String × PendingEntry)) (order : List String)
    (batchSize now : Nat) :
    ∀ (fuel scanIdx scanned : Nat) (out : List String),
      out.length ≤ batchSize →
      (selectGo pending order batchSize now fuel scanIdx scanned out).1.length ≤ batchSize ∧
      (∀ sig ∈ (selectGo pending order batchSize now fuel scanIdx scanned out).1,
        sig ∈ out ∨ (sig ∈ order ∧
          ∃ m, mapLookup pending sig = some m ∧ m.nextAttemptAtMs ≤ now)) ∧
      (selectGo pending order batchSize now fuel scanIdx scanned out).2.2 ≤ scanned + fuel := by
  intro fuel
  induction fuel with
  | zero =>
    intro scanIdx scanned out hlen
    rw [selectGo_zero_eq]
    refine ⟨by simpa using hlen, ?_, Nat.le_refl _⟩
    intro sig hs
    exact Or.inl (by simpa using hs)
  | succ f ih =>
    intro scanIdx scanned out hlen
    by_cases hstop : batchSize ≤ out.length ∨ order.length = 0
    · rw [selectGo_stop_eq _ _ _ _ _ _ _ _ hstop]
      refine ⟨by simpa using hlen, ?_, Nat.le_add_right scanned (f + 1)⟩
      intro sig hs
      exact Or.inl (by simpa using hs)
    · rw [selectGo_step _ _ _ _ _ _ _ _ hstop
        (if order.length ≤ scanIdx then 0 else scanIdx) rfl]
      have hout : out.length < batchSize := by
        rcases Nat.lt_or_ge out.length batchSize with h | h
        · exact h
        · exact absurd (Or.inl h) hstop
      cases hAt : listAt order (if order.length ≤ scanIdx then 0 else scanIdx) with
      | none =>
        simp only [hAt]
        obtain ⟨g1, g2, g3⟩ := ih _ (scanned + 1) out hlen
        exact ⟨g1, fun sig hs => g2 sig hs, by omega⟩
      | some sig0 =>
        simp only [hAt]
        cases hLk : mapLookup pending sig0 with
        | none =>
          simp only [hLk]
          obtain ⟨g1, g2, g3⟩ := ih _ (scanned + 1) out hlen
          exact ⟨g1, fun sig hs => g2 sig hs, by omega⟩
        | some meta =>
          simp only [hLk]
          by_cases hRdy : now < meta.nextAttemptAtMs
          · rw [if_pos hRdy]
            obtain ⟨g1, g2, g3⟩ := ih _ (scanned + 1) out hlen
            exact ⟨g1, fun sig hs => g2 sig hs, by omega⟩
          · rw [if_neg hRdy]
            obtain ⟨g1, g2, g3⟩ := ih _ (scanned + 1) (sig0 :: out) (by simpa using hout)
            refine ⟨g1, ?_, by omega⟩
            intro sig hs
            rcases g2 sig hs with hmem | hready
            · rcases List.mem_cons.mp hmem with heq | hmem'
              · subst heq
                exact Or.inr ⟨listAt_mem _ _ _ hAt,
                  meta, hLk, Nat.le_of_not_lt hRdy⟩
              · exact Or.inl hmem'
            · exact Or.inr hready

theorem drop_cons_of_listAt {α : Type} (l : List α) (i : Nat) (a : α)
    (h : listAt l i = some a) : l.drop i = a :: l.drop (i + 1) := by
  induction l generalizing i with
  | nil => simp [listAt] at h
  | cons b bs ih =>
    cases i with
    | zero =>
      simp only [listAt] at h
      cases h
      simp
    | succ j =>
      simp only [listAt] at h
      simpa using ih j h

theorem selectGo_window (pending : List (String × PendingEntry)) (order : List String)
    (batchSize now : Nat) :
    ∀ (fuel scanIdx scanned : Nat) (out : List String),
      ∃ extra : List String,
        (selectGo pending order batchSize now fuel scanIdx scanned out).1 =
          out.reverse ++ extra ∧
        extra.Sublist (order.drop scanIdx ++ (List.replicate fuel order).join) := by
  intro fuel
  induction fuel with
  | zero =>
    intro scanIdx scanned out
    rw [selectGo_zero_eq]
    exact ⟨[], by simp, List.nil_sublist _⟩
  | succ f ih =>
    intro scanIdx scanned out
    by_cases hstop : batchSize ≤ out.length ∨ order.length = 0
    · rw [selectGo_stop_eq _ _ _ _ _ _ _ _ hstop]
      exact ⟨[], by simp, List.nil_sublist _⟩
    · have hjoin : (List.replicate (f + 1) order).join =
          order ++ (List.replicate f order).join := by
        simp [List.replicate_succ]
      by_cases hwrap : order.length ≤ scanIdx
      · -- wraparound: the cursor resets to 0
        rw [selectGo_step _ _ _ _ _ _ _ _ hstop 0 (if_pos hwrap).symm]
        have hdropnil : order.drop scanIdx = [] := List.drop_eq_nil_of_le hwrap
        have hsub0 : ∀ x : List String,
            x.Sublist (order.drop (0 + 1) ++ (List.replicate f order).join) →
            x.Sublist (order.drop scanIdx ++ (List.replicate (f + 1) order).join) := by
          intro x hx
          rw [hdropnil, List.nil_append, hjoin]
          exact hx.trans (List.Sublist.append (List.drop_sublist _ order)
            (List.Sublist.refl _))
        cases hAt : listAt order 0 with
        | none =>
          simp only [hAt]
          obtain ⟨extra, he1, he2⟩ := ih (0 + 1) (scanned + 1) out
          exact ⟨extra, he1, hsub0 extra he2⟩
        | some sig0 =>
          simp only [hAt]
          cases hLk : mapLookup pending sig0 with
          | none =>
            simp only [hLk]
            obtain ⟨extra, he1, he2⟩ := ih (0 + 1) (scanned + 1) out
            exact ⟨extra, he1, hsub0 extra he2⟩
          | some meta =>
            simp only [hLk]
            by_cases hRdy : now < meta.nextAttemptAtMs
            · rw [if_pos hRdy]
              obtain ⟨extra, he1, he2⟩ := ih (0 + 1) (scanned + 1) out
              exact ⟨extra, he1, hsub0 extra he2⟩
            · rw [if_neg hRdy]
              obtain ⟨extra, he1, he2⟩ := ih (0 + 1) (scanned + 1) (sig0 :: out)
              refine ⟨sig0 :: extra, ?_, ?_⟩
              · rw [he1]
                simp
              · have horder : order.drop 0 = sig0 :: order.drop 1 :=
                  drop_cons_of_listAt order 0 sig0 hAt
                rw [List.drop_zero] at horder
                rw [hdropnil, List.nil_append, hjoin]
                rw [congrArg (fun l => l ++ (List.replicate f order).join) horder]
                rw [List.cons_append]
                exact List.Sublist.cons₂ sig0 he2
      · -- no wraparound
        rw [selectGo_step _ _ _ _ _ _ _ _ hstop scanIdx (if_neg hwrap).symm]
        have hsub1 : ∀ x : List String,
            x.Sublist (order.drop (scanIdx + 1) ++ (List.replicate f order).join) →
            x.Sublist (order.drop scanIdx ++ (List.replicate (f + 1) order).join) := by
          intro x hx
          rw [hjoin]
          have h1 : (order.drop (scanIdx + 1)).Sublist (order.drop scanIdx) := by
            have h0 := List.drop_sublist 1 (order.drop scanIdx)
            rw [List.drop_drop] at h0
            simpa [Nat.add_comm] using h0
          have h2 : ((List.replicate f order).join).Sublist
              (order ++ (List.replicate f order).join) :=
            List.sublist_append_right _ _
          exact hx.trans (List.Sublist.append h1 h2)
        cases hAt : listAt order scanIdx with
        | none =>
          simp only [hAt]
          obtain ⟨extra, he1, he2⟩ := ih (scanIdx + 1) (scanned + 1) out
          exact ⟨extra, he1, hsub1 extra he2⟩
        | some sig0 =>
          simp only [hAt]
          cases hLk : mapLookup pending sig0 with
          | none =>
            simp only [hLk]
            obtain ⟨extra, he1, he2⟩ := ih (scanIdx + 1) (scanned + 1) out
            exact ⟨extra, he1, hsub1 extra he2⟩
          | some meta =>
            simp only [hLk]
            by_cases hRdy : now < meta.nextAttemptAtMs
            · rw [if_pos hRdy]
              obtain ⟨extra, he1, he2⟩ := ih (scanIdx + 1) (scanned + 1) out
              exact ⟨extra, he1, hsub1 extra he2⟩
            · rw [if_neg hRdy]
              obtain ⟨extra, he1, he2⟩ := ih (scanIdx + 1) (scanned + 1) (sig0 :: out)
              refine ⟨sig0 :: extra, ?_, ?_⟩
              · rw [he1]
                simp
              · have hdc : order.drop scanIdx = sig0 :: order.drop (scanIdx + 1) :=
                  drop_cons_of_listAt order scanIdx sig0 hAt
                rw [hdc, hjoin, List.cons_append]
                refine List.Sublist.cons₂ sig0 ?_
                exact he2.trans (List.Sublist.append (List.Sublist.refl _)
                  (List.sublist_append_right _ _))

/-! ## Aggregation lemmas (claims C7, C8) -/

theorem programsInterestingOf_nodup (enh : Enh) : (programsInterestingOf enh).Nodup := by
  unfold programsInterestingOf extractPrograms
  exact List.Nodup.filter _ (sortUnique_nodup _)

theorem bumpFingerprint_count (tbl : List (String × FpStat)) (fp feePayer : String)
    (t : Nat) (delta : Delta) (ex : FpExamples) :
    ∃ fs : FpStat, mapLookup (bumpFingerprint tbl fp feePayer t delta ex) fp = some fs ∧
      fs.count = (match mapLookup tbl fp with
        | some old => old.count
        | none => 0) + 1 := by
  unfold bumpFingerprint
  cases h : mapLookup tbl fp with
  | none =>
    simp only [h, Option.getD_none]
    refine ⟨_, mapLookup_mapSet_self _ _ _, ?_⟩
    repeat' split
    all_goals rfl
  | some old =>
    simp only [h, Option.getD_some]
    refine ⟨_, mapLookup_mapSet_self _ _ _, ?_⟩
    repeat' split
    all_goals rfl

theorem bumpProgram_count (tbl : List (String × ProgStat)) (pid : String) (delta : Delta) :
    ∃ ps : ProgStat, mapLookup (bumpProgram tbl pid delta) pid = some ps ∧
      ps.count = (match mapLookup tbl pid with
        | some old => old.count
        | none => 0) + 1 := by
  unfold bumpProgram
  cases h : mapLookup tbl pid with
  | none =>
    simp only [h, Option.getD_none]
    refine ⟨_, mapLookup_mapSet_self _ _ _, ?_⟩
    repeat' split
    all_goals rfl
  | some old =>
    simp only [h, Option.getD_some]
    refine ⟨_, mapLookup_mapSet_self _ _ _, ?_⟩
    repeat' split
    all_goals rfl

theorem bumpProgram_lookup_ne (tbl : List (String × ProgStat)) (pid pid' : String)
    (delta : Delta) (h : pid' ≠ pid) :
    mapLookup (bumpProgram tbl pid delta) pid' = mapLookup tbl pid' := by
  unfold bumpProgram
  exact mapLookup_mapSet_ne _ _ _ _ h

theorem foldBump_not_mem (d : Delta) (pids : List String) :
    ∀ (tbl : List (String × ProgStat)) (pid : String), pid ∉ pids →
      mapLookup (pids.foldl (fun tb p => bumpProgram tb p d) tbl) pid =
        mapLookup tbl pid := by
  induction pids with
  | nil => intro tbl pid _; rfl
  | cons q rest ih =>
    intro tbl pid hmem
    rw [List.foldl_cons]
    have h1 : pid ∉ rest := fun hc => hmem (List.mem_cons_of_mem q hc)
    have h2 : pid ≠ q := fun hc => hmem (hc ▸ List.mem_cons_self q rest)
    rw [ih _ pid h1, bumpProgram_lookup_ne _ _ _ _ h2]

theorem foldBump_mem (d : Delta) (pids : List String) :
    ∀ (tbl : List (String × ProgStat)) (pid : String), pids.Nodup → pid ∈ pids →
      ∃ ps : ProgStat, mapLookup (pids.foldl (fun tb p => bumpProgram tb p d) tbl) pid =
        some ps ∧
        ps.count = (match mapLookup tbl pid with
          | some old => old.count
          | none => 0) + 1 := by
  induction pids with
  | nil => intro tbl pid _ hmem; simp at hmem
  | cons q rest ih =>
    intro tbl pid hnd hmem
    rw [List.foldl_cons]
    rw [List.nodup_cons] at hnd
    rcases List.mem_cons.mp hmem with heq | hmem'
    · subst heq
      obtain ⟨ps, hp1, hp2⟩ := bumpProgram_count tbl pid d
      exact ⟨ps, by rw [foldBump_not_mem d rest _ pid hnd.1]; exact hp1, hp2⟩
    · obtain ⟨ps, hp1, hp2⟩ := ih (bumpProgram tbl q d) pid hnd.2 hmem'
      have hne : pid ≠ q := fun hc => hnd.1 (hc ▸ hmem')
      refine ⟨ps, hp1, ?_⟩
      rw [bumpProgram_lookup_ne _ _ _ _ hne] at hp2
      exact hp2

/-! ## Record-processing and log lemmas (claims C9, C10) -/

theorem processEnh_frame (cfg : Config) (s : St) (sig : String) (meta : PendingEntry)
    (enh : Enh) (now2 : Nat) :
    (processEnh cfg s sig meta enh now2).processed = s.processed + 1 ∧
    (∃ rec : LogRecord, (processEnh cfg s sig meta enh now2).log = s.log ++ [rec] ∧
      rec.signature = sig) ∧
    (processEnh cfg s sig meta enh now2).pending = (mapDelete s.pending sig).1 := by
  by_cases hev : hasEvidence enh
  · dsimp only [processEnh]
    rw [if_pos hev]
    exact ⟨rfl, ⟨_, rfl, rfl⟩, rfl⟩
  · dsimp only [processEnh]
    rw [if_neg hev]
    exact ⟨rfl, ⟨_, rfl, rfl⟩, rfl⟩

theorem countSig_append_self (log : List LogRecord) (rec : LogRecord) (sig : String)
    (h : rec.signature = sig) :
    countSig (log ++ [rec]) sig = countSig log sig + 1 := by
  unfold countSig
  rw [List.filter_append, List.length_append]
  simp [h]

theorem mapHas_true_of_mem_keys {β : Type} (m : List (String × β)) (k : String)
    (h : k ∈ m.map Prod.fst) : mapHas m k = true := by
  induction m with
  | nil => simp at h
  | cons p t ih =>
    rcases List.mem_cons.mp h with h1 | h1
    · simp [mapHas, h1.symm]
    · have := ih h1
      simp only [mapHas, List.any_cons]
      simpa [mapHas] using Or.inr this

theorem not_mem_keys_of_has_false {β : Type} (m : List (String × β)) (k : String)
    (h : mapHas m k = false) : k ∉ m.map Prod.fst := by
  intro hmem
  rw [mapHas_true_of_mem_keys m k hmem] at h
  exact Bool.noConfusion h

/-- The state after an accepted `tryIngestSignature` call below capacity. -/
theorem tryIngest_accept_below (cfg : Config) (s : St) (sig : String)
    (hint : Option Nat) (src : Option String) (draw : ℚ) (now : Nat)
    (h1 : sig ≠ "") (h2 : mapHas s.pending sig = false)
    (h3 : ¬(cfg.ingressSamplePct < 1 ∧ cfg.ingressSamplePct < draw))
    (h4 : ¬ cfg.maxPending ≤ s.pending.length) :
    tryIngestSignature cfg s sig hint src draw now =
      { s with
        pending := s.pending ++ [(sig, newEntry cfg hint src now)],
        pendingOrder := s.pendingOrder ++ [sig],
        ingested := s.ingested + 1 } := by
  unfold tryIngestSignature
  rw [if_neg h1, if_neg (by simp [h2]), if_neg h3, evictStep_below cfg s h4]
  dsimp only
  rw [mapSet_of_not_has _ _ _ h2]


/-! # Claim theorems -/

/-- C1: for every sequence of `tryIngestSignature` calls from the initial
state, the pending buffer never exceeds `MAX_PENDING` entries (both before
and after one further call), and when an accepted insertion meets a full
buffer, exactly one entry — the oldest still-present one by insertion order,
i.e. the head of the insertion-ordered pending map — is evicted before the
new entry is appended, and the `evicted` counter is incremented for it.
`1 ≤ cfg.maxPending` holds for every configuration the script can load
(`MAX_PENDING` is clamped to at least 1000). -/
theorem C1_capacity_and_oldest_eviction (cfg : Config) (hmp : 1 ≤ cfg.maxPending)
    (evs : List IngestEv) (ev : IngestEv)
    (h1 : ev.sig ≠ "")
    (h2 : mapHas (runIngests cfg initSt evs).pending ev.sig = false)
    (h3 : ¬(cfg.ingressSamplePct < 1 ∧ cfg.ingressSamplePct < ev.draw)) :
    (runIngests cfg initSt evs).pending.length ≤ cfg.maxPending ∧
    (runIngests cfg initSt (evs ++ [ev])).pending.length ≤ cfg.maxPending ∧
    (cfg.maxPending ≤ (runIngests cfg initSt evs).pending.length →
      ∃ k e0 rest, (runIngests cfg initSt evs).pending = (k, e0) :: rest ∧
        (runIngests cfg initSt (evs ++ [ev])).pending =
          rest ++ [(ev.sig, newEntry cfg ev.hintSlot ev.source ev.now)] ∧
        (runIngests cfg initSt (evs ++ [ev])).evicted =
          (runIngests cfg initSt evs).evicted + 1 ∧
        (runIngests cfg initSt (evs ++ [ev])).ingested =
          (runIngests cfg initSt evs).ingested + 1) := by
  have hInv := runIngests_inv cfg hmp initSt (ingestInv_init cfg) evs
  have hstep : runIngests cfg initSt (evs ++ [ev]) =
      ingest1 cfg (runIngests cfg initSt evs) ev := by
    unfold runIngests
    rw [List.foldl_append]
    rfl
  refine ⟨hInv.2.2, ?_, ?_⟩
  · rw [hstep]
    exact (ingest1_inv cfg hmp _ hInv ev).2.2
  · intro hcap
    obtain ⟨k, e0, rest, hpd, h4, h5, h6⟩ :=
      ingest1_at_cap_char cfg hmp _ hInv ev h1 h2 h3 hcap
    exact ⟨k, e0, rest, hpd, by rw [hstep]; exact h4, by rw [hstep]; exact h5,
      by rw [hstep]; exact h6⟩

/-- C1 witness: capacity 2, three distinct accepted signatures; the third
insertion evicts the oldest entry `A`. -/
theorem C1_capacity_and_oldest_eviction_witness :
    1 ≤ cfgCap2.maxPending ∧ evC.sig ≠ "" ∧
    mapHas (runIngests cfgCap2 initSt [evA, evB]).pending evC.sig = false ∧
    ¬(cfgCap2.ingressSamplePct < 1 ∧ cfgCap2.ingressSamplePct < evC.draw) ∧
    ((runIngests cfgCap2 initSt [evA, evB]).pending.length ≤ cfgCap2.maxPending ∧
    (runIngests cfgCap2 initSt ([evA, evB] ++ [evC])).pending.length ≤ cfgCap2.maxPending ∧
    (cfgCap2.maxPending ≤ (runIngests cfgCap2 initSt [evA, evB]).pending.length →
      ∃ k e0 rest, (runIngests cfgCap2 initSt [evA, evB]).pending = (k, e0) :: rest ∧
        (runIngests cfgCap2 initSt ([evA, evB] ++ [evC])).pending =
          rest ++ [(evC.sig, newEntry cfgCap2 evC.hintSlot evC.source evC.now)] ∧
        (runIngests cfgCap2 initSt ([evA, evB] ++ [evC])).evicted =
          (runIngests cfgCap2 initSt [evA, evB]).evicted + 1 ∧
        (runIngests cfgCap2 initSt ([evA, evB] ++ [evC])).ingested =
          (runIngests cfgCap2 initSt [evA, evB]).ingested + 1)) :=
  ⟨by decide, by decide, by decide, by decide,
    C1_capacity_and_oldest_eviction cfgCap2 (by decide) [evA, evB] evC
      (by decide) (by decide) (by decide)⟩

/-- C6 counterexample: with sampling percentage 0, an intake event whose
pseudo-random draw is exactly 0 is still ingested, because the code rejects
only when `Math.random() > INGRESS_SAMPLE_PCT` and `Math.random()` can
return 0.  So `ingested` does not stay at 0 for every draw outcome. -/
theorem C6_p0_draw0_counterexample :
    cfgP0.ingressSamplePct = 0 ∧
    ¬((tryIngestSignature cfgP0 initSt "B" none none 0 10).ingested = 0) := by
  constructor
  · rfl
  · decide

/-- C6 (amended): with `p = 0.0` an event is ingested only when the draw is
exactly 0; for every intake sequence all of whose draws are strictly
positive, `ingested` stays unchanged (in particular stays 0 from the initial
state).  With `p = 1.0` the sampling branch is skipped entirely and every
event with a non-empty, not-currently-pending signature is ingested. -/
theorem C6_sampling_amended :
    (∀ (cfg : Config) (s : St) (evs : List IngestEv), cfg.ingressSamplePct = 0 →
      (∀ e ∈ evs, 0 < e.draw) → (runIngests cfg s evs).ingested = s.ingested) ∧
    (∀ (cfg : Config) (s : St) (ev : IngestEv), cfg.ingressSamplePct = 1 →
      ev.sig ≠ "" → mapHas s.pending ev.sig = false →
      (ingest1 cfg s ev).ingested = s.ingested + 1 ∧
      mapLookup (ingest1 cfg s ev).pending ev.sig =
        some (newEntry cfg ev.hintSlot ev.source ev.now)) :=
  ⟨fun cfg s evs hp hd => runIngests_p0_skip cfg hp s evs hd,
   fun cfg s ev hp h1 h2 => ingest1_p1_accepts cfg hp s ev h1 h2⟩

/-- C6 witness: under `p = 0` a positive-draw event stream leaves `ingested`
at 0; under `p = 1` the event `A` is accepted into the empty buffer. -/
theorem C6_sampling_amended_witness :
    (runIngests cfgP0 initSt [evBHalf]).ingested = 0 ∧
    ((ingest1 cfgB1 initSt evA).ingested = 0 + 1 ∧
      mapLookup (ingest1 cfgB1 initSt evA).pending evA.sig =
        some (newEntry cfgB1 evA.hintSlot evA.source evA.now)) :=
  ⟨C6_sampling_amended.1 cfgP0 initSt _ (by decide)
      (by
        intro e he
        rw [List.mem_singleton] at he
        subst he
        show (0 : ℚ) < 1 / 2
        norm_num),
   C6_sampling_amended.2 cfgB1 initSt evA (by decide) (by decide) (by decide)⟩

/-- C2 counterexample: when every attempt of the enrichment call is rate
limited, the call does NOT surface an error — after its six attempts it
returns `ok []` — and the batch scheduler therefore runs the per-signature
missing path, incrementing the requested signature's `attempts` from 0 to 1
(and scheduling it at `now + 1000`), with no failure counter touched.  This
contradicts both halves of the claim: no error reaches the scheduler, no
`markFailed`-style reschedule happens, and the batch-level failure does count
against the signature's per-item retry budget. -/
theorem C2_counterexample :
    fetchEnhancedBatch ["A"] netAll429 = Except.ok [] ∧
    (batcherTick cfgB1 stA 1000000 20 25 netAll429).enhancedRateLimited = 0 ∧
    (batcherTick cfgB1 stA 1000000 20 25 netAll429).enhancedOtherErrors = 0 ∧
    (batcherTick cfgB1 stA 1000000 20 25 netAll429).enhancedMissing = 1 ∧
    mapLookup (batcherTick cfgB1 stA 1000000 20 25 netAll429).pending "A" = some entryA1 := by
  refine ⟨rfl, ?_, ?_, ?_, ?_⟩ <;> decide

/-- C2 (amended): if all six attempts of `fetchEnhancedBatch` fail with a
rate limit or timeout, the call surfaces no error: it returns an empty
response list, and the tick is indistinguishable from one whose enrichment
response is empty — every requested signature takes the per-item missing
path of C3 (which increments its `attempts`).  Only a failure that is
neither a rate limit nor a timeout surfaces an error to the scheduler, which
then reschedules the whole batch without touching `attempts` (C5). -/
theorem C2_exhausted_retries_amended (sigs : List String) (net : Nat → NetResult)
    (h : ∀ i, i < 6 → net i = NetResult.rateLimited ∨ net i = NetResult.timeout) :
    fetchEnhancedBatch sigs net = Except.ok [] ∧
    (∀ (cfg : Config) (s : St) (stopAtMs now now2 : Nat),
      batcherTick cfg s stopAtMs now now2 net =
        batcherTick cfg s stopAtMs now now2 (fun _ => NetResult.success (some []))) := by
  have hf : ∀ sgs : List String, fetchEnhancedBatch sgs net = Except.ok [] := by
    intro sgs
    exact fetchLoop_all_backoff net 6 0 (fun i _ h2 => h i (by omega))
  refine ⟨hf sigs, ?_⟩
  intro cfg s stopAtMs now now2
  have hg : ∀ sgs : List String,
      fetchEnhancedBatch sgs (fun _ => NetResult.success (some [])) = Except.ok [] :=
    fun _ => rfl
  unfold batcherTick
  simp only [hf, hg]

/-- C2 witness: the all-429 oracle satisfies the hypothesis, the call returns
`ok []`, and the tick on a one-signature buffer equals the empty-response
tick. -/
theorem C2_exhausted_retries_amended_witness :
    fetchEnhancedBatch ["A"] netAll429 = Except.ok [] ∧
    (∀ (cfg : Config) (s : St) (stopAtMs now now2 : Nat),
      batcherTick cfg s stopAtMs now now2 netAll429 =
        batcherTick cfg s stopAtMs now now2 (fun _ => NetResult.success (some []))) :=
  C2_exhausted_retries_amended ["A"] netAll429 (fun _ _ => Or.inl rfl)

/-- C3: one missing outcome for a pending signature (requested but absent
from the response) increments `attempts` and either (a) keeps the entry with
`nextAttemptAtMs = now + min(20000, 500 * 2^attempts)` — exponential backoff
with a fixed 20-second ceiling — when the budget is not exhausted, or
(b) deletes the entry and increments `droppedMissing` by exactly 1 when
`attempts` exceeds `MAX_MISSING_RETRIES`; consequently, starting from a
fresh entry (`attempts = 0`), exactly `MAX_MISSING_RETRIES + 1` consecutive
missing outcomes remove it with `droppedMissing` up by exactly 1, every
earlier outcome leaving it buffered with `attempts` equal to the number of
missing outcomes so far. -/
theorem C3_missing_retry_then_drop (cfg : Config) (s : St) (sig : String)
    (meta : PendingEntry) (now2 : Nat)
    (hl : mapLookup s.pending sig = some meta)
    (hnodup : (s.pending.map Prod.fst).Nodup) :
    (¬ cfg.maxMissingRetries < meta.attempts + 1 →
      mapLookup (processSig cfg s sig none now2).pending sig =
        some (missRetryEntry meta now2) ∧
      (processSig cfg s sig none now2).droppedMissing = s.droppedMissing) ∧
    (cfg.maxMissingRetries < meta.attempts + 1 →
      mapLookup (processSig cfg s sig none now2).pending sig = none ∧
      (processSig cfg s sig none now2).droppedMissing = s.droppedMissing + 1) ∧
    (∀ times : List Nat, meta.attempts = 0 →
      times.length = cfg.maxMissingRetries + 1 →
      mapLookup ((times.foldl (fun st t => processSig cfg st sig none t) s)).pending sig =
        none ∧
      ((times.foldl (fun st t => processSig cfg st sig none t) s)).droppedMissing =
        s.droppedMissing + 1) := by
  refine ⟨?_, ?_, ?_⟩
  · intro hle
    obtain ⟨h1, h2, _, _⟩ := processSig_missing_retry cfg s sig meta now2 hl hle
    exact ⟨h1, h2⟩
  · intro hgt
    obtain ⟨h1, h2, _⟩ := processSig_missing_drop cfg s sig meta now2 hl hnodup hgt
    exact ⟨h1, h2⟩
  · intro times h0 hlen
    rcases List.eq_nil_or_concat times with hnil | ⟨ts, tl, hcat⟩
    · rw [hnil] at hlen
      simp at hlen
    · subst hcat
      rw [List.concat_eq_append] at hlen ⊢
      rw [List.length_append, List.length_singleton] at hlen
      have hts : ts.length = cfg.maxMissingRetries := by omega
      obtain ⟨m', hm1, hm2, hm3, hm4⟩ :=
        processSig_missing_iter cfg sig ts s meta hl hnodup (by omega)
      have hnd' : (((ts.foldl (fun st t => processSig cfg st sig none t) s)).pending.map
          Prod.fst).Nodup := by
        rw [hm4]; exact hnodup
      have hgt : cfg.maxMissingRetries < m'.attempts + 1 := by
        rw [hm2, h0, hts]
        omega
      obtain ⟨h1, h2, _⟩ :=
        processSig_missing_drop cfg _ sig m' tl hm1 hnd' hgt
      rw [List.foldl_append]
      refine ⟨by simpa using h1, ?_⟩
      have := h2
      simp only [List.foldl_cons, List.foldl_nil] at this ⊢
      rw [this, hm3]

/-- C3 witness: with `MAX_MISSING_RETRIES = 1`, two consecutive missing
outcomes drop the fresh entry `A` and bump `droppedMissing` from 0 to 1;
the first outcome alone keeps it with `attempts = 1`. -/
theorem C3_missing_retry_then_drop_witness :
    mapLookup stA.pending "A" = some entryA0 ∧
    (stA.pending.map Prod.fst).Nodup ∧
    ((¬ cfgM1.maxMissingRetries < entryA0.attempts + 1 →
      mapLookup (processSig cfgM1 stA "A" none 25).pending "A" =
        some (missRetryEntry entryA0 25) ∧
      (processSig cfgM1 stA "A" none 25).droppedMissing = stA.droppedMissing) ∧
    (mapLookup (([25, 30000].foldl (fun st t => processSig cfgM1 st "A" none t) stA)).pending
        "A" = none ∧
      (([25, 30000].foldl (fun st t => processSig cfgM1 st "A" none t) stA)).droppedMissing =
        stA.droppedMissing + 1)) := by
  refine ⟨by decide, by decide, ?_, ?_⟩
  · intro hle
    exact ((C3_missing_retry_then_drop cfgM1 stA "A" entryA0 25 (by decide) (by decide)).1) hle
  · exact ((C3_missing_retry_then_drop cfgM1 stA "A" entryA0 25 (by decide) (by decide)).2.2)
      [25, 30000] (by decide) (by decide)

/-- C4 counterexample: with batch size 2 and a single ready signature, the
wraparound scan returns that signature twice in one batch, so the claim's
"no signature occurs more than once in the returned batch" fails on the
code. -/
theorem C4_duplicate_counterexample :
    (selectReadyBatch cfgB2 stA.pending stA.pendingOrder 0 50).1 = ["A", "A"] ∧
    ¬ (selectReadyBatch cfgB2 stA.pending stA.pendingOrder 0 50).1.Nodup := by
  constructor <;> decide

/-- C4 (amended): `selectReadyBatch` returns at most `BATCH_SIZE` entries;
every returned signature occurs in the insertion log and names a buffered
entry whose `nextAttemptAtMs ≤ now`; the scan examines at most
`maxScan = clamp(BATCH_SIZE * 50, 500, 20000)` positions; the returned batch
is a subsequence of the wraparound scan window (the insertion log from the
cursor, followed by whole rounds of the log); and selection itself removes
nothing — it reads the pending map and moves only the scan cursor.  However,
when the scan wraps around within one selection, the same signature can be
returned more than once. -/
theorem C4_selection_amended (cfg : Config) (pending : List (String × PendingEntry))
    (order : List String) (scanIdx now : Nat) :
    (selectReadyBatch cfg pending order scanIdx now).1.length ≤ cfg.batchSize ∧
    (∀ sig ∈ (selectReadyBatch cfg pending order scanIdx now).1,
      sig ∈ order ∧ ∃ m, mapLookup pending sig = some m ∧ m.nextAttemptAtMs ≤ now) ∧
    (selectReadyBatch cfg pending order scanIdx now).2.2 ≤ maxScanOf cfg ∧
    (selectReadyBatch cfg pending order scanIdx now).1.Sublist
      (order.drop scanIdx ++ (List.replicate (maxScanOf cfg) order).join) := by
  obtain ⟨g1, g2, g3⟩ :=
    selectGo_main pending order cfg.batchSize now (maxScanOf cfg) scanIdx 0 []
      (Nat.zero_le _)
  obtain ⟨extra, he1, he2⟩ :=
    selectGo_window pending order cfg.batchSize now (maxScanOf cfg) scanIdx 0 []
  refine ⟨g1, ?_, by simpa using g3, ?_⟩
  · intro sig hs
    rcases g2 sig hs with hmem | hready
    · simp at hmem
    · exact hready
  · show (selectGo pending order cfg.batchSize now (maxScanOf cfg) scanIdx 0 []).1.Sublist _
    rw [he1]
    simpa using he2

/-- Unfolding of an actually-running tick (latch free, buffer non-empty,
deadline not reached, non-empty selection). -/
theorem batcherTick_run_eq (cfg : Config) (s : St) (stopAtMs now now2 : Nat)
    (net : Nat → NetResult)
    (hIF : s.inFlight = false)
    (hne : s.pending.length ≠ 0)
    (hnow : now < stopAtMs)
    (hsel : (selectReadyBatch cfg s.pending s.pendingOrder s.scanIdx now).1 ≠ []) :
    batcherTick cfg s stopAtMs now now2 net =
      (match fetchEnhancedBatch
          (selectReadyBatch cfg s.pending s.pendingOrder s.scanIdx now).1 net with
       | Except.ok enhanced =>
         (selectReadyBatch cfg s.pending s.pendingOrder s.scanIdx now).1.foldl
           (fun st sig => processSig cfg st sig (mapLookup (indexBySig enhanced) sig) now2)
           { s with scanIdx := (selectReadyBatch cfg s.pending s.pendingOrder s.scanIdx now).2.1 }
       | Except.error e =>
         failRescheduleTick
           { s with scanIdx := (selectReadyBatch cfg s.pending s.pendingOrder s.scanIdx now).2.1 }
           e ((selectReadyBatch cfg s.pending s.pendingOrder s.scanIdx now).1) now2) := by
  unfold batcherTick
  have h1 : (s.inFlight = true) = False := by rw [hIF]; simp
  have h2 : (s.pending.length = 0) = False := eq_false hne
  have h3 : (stopAtMs ≤ now) = False := eq_false (Nat.not_le.mpr hnow)
  have h4 : ((selectReadyBatch cfg s.pending s.pendingOrder s.scanIdx now).1.length = 0) =
      False := eq_false (fun h0 => hsel (List.length_eq_zero.mp h0))
  simp only [h1, h2, h3, h4, if_false]

/-- A tick whose selection is the single signature `sig` and whose fetch
resolves `sig` reduces to `processEnh` on the post-selection state. -/
theorem batcherTick_single_success (cfg : Config) (s : St) (stopAtMs now now2 : Nat)
    (net : Nat → NetResult) (enhanced : List Enh) (sig : String) (enh : Enh)
    (meta : PendingEntry)
    (hIF : s.inFlight = false) (hne : s.pending.length ≠ 0) (hnow : now < stopAtMs)
    (hsel : (selectReadyBatch cfg s.pending s.pendingOrder s.scanIdx now).1 = [sig])
    (hf : fetchEnhancedBatch [sig] net = Except.ok enhanced)
    (hix : mapLookup (indexBySig enhanced) sig = some enh)
    (hl : mapLookup s.pending sig = some meta) :
    batcherTick cfg s stopAtMs now now2 net =
      processEnh cfg
        { s with scanIdx := (selectReadyBatch cfg s.pending s.pendingOrder s.scanIdx now).2.1 }
        sig meta enh now2 := by
  have htick := batcherTick_run_eq cfg s stopAtMs now now2 net hIF hne hnow
    (by rw [hsel]; simp)
  rw [hsel, hf] at htick
  dsimp only at htick
  rw [List.foldl_cons, List.foldl_nil, hix] at htick
  rw [htick]
  exact processSig_some_eq cfg
    { s with scanIdx := (selectReadyBatch cfg s.pending s.pendingOrder s.scanIdx now).2.1 }
    sig meta enh now2 hl

/-- C5: a batch-level transport failure (an error surfaced by
`fetchEnhancedBatch`) leaves every signature of the batch — and every other
buffered signature — still present in the pending buffer; each selected,
still-present entry gets `nextAttemptAtMs := max(current, now + 1000)` and
keeps `attempts`, `seenAtMs`, `hintSlot` and `source` unchanged (the record
update touches only `nextAttemptAtMs`); entries outside the batch are
untouched, nothing new appears, and `droppedMissing`, both aggregate tables,
the durable log, `processed`, `ingested` and `evicted` are all unchanged. -/
theorem C5_batch_failure_frame (cfg : Config) (s : St) (stopAtMs now now2 : Nat)
    (net : Nat → NetResult) (err : NetErr)
    (hIF : s.inFlight = false)
    (hne : s.pending.length ≠ 0)
    (hnow : now < stopAtMs)
    (hsel : (selectReadyBatch cfg s.pending s.pendingOrder s.scanIdx now).1 ≠ [])
    (hfetch : fetchEnhancedBatch
      (selectReadyBatch cfg s.pending s.pendingOrder s.scanIdx now).1 net =
      Except.error err) :
    (∀ k m, mapLookup s.pending k = some m →
      mapLookup (batcherTick cfg s stopAtMs now now2 net).pending k =
        some (if k ∈ (selectReadyBatch cfg s.pending s.pendingOrder s.scanIdx now).1
          then bumpNext (now2 + 1000) m else m)) ∧
    (∀ k, mapLookup s.pending k = none →
      mapLookup (batcherTick cfg s stopAtMs now now2 net).pending k = none) ∧
    (batcherTick cfg s stopAtMs now now2 net).droppedMissing = s.droppedMissing ∧
    (batcherTick cfg s stopAtMs now now2 net).fpStats = s.fpStats ∧
    (batcherTick cfg s stopAtMs now now2 net).programStats = s.programStats ∧
    (batcherTick cfg s stopAtMs now now2 net).log = s.log ∧
    (batcherTick cfg s stopAtMs now now2 net).processed = s.processed ∧
    (batcherTick cfg s stopAtMs now now2 net).ingested = s.ingested ∧
    (batcherTick cfg s stopAtMs now now2 net).evicted = s.evicted := by
  have htick := batcherTick_run_eq cfg s stopAtMs now now2 net hIF hne hnow hsel
  rw [hfetch] at htick
  rw [htick]
  dsimp only
  unfold failRescheduleTick
  by_cases hcl : err.statusCode = some 429 ∨ jsIncludes err.msg "429"
  · rw [if_pos hcl]
    refine ⟨?_, ?_, ?_, ?_, ?_, ?_, ?_, ?_, ?_⟩
    · intro k m hm
      rw [failFold_lookup]
      show (mapLookup s.pending k).map _ = _
      rw [hm]
      rfl
    · intro k hm
      rw [failFold_lookup]
      show (mapLookup s.pending k).map _ = _
      rw [hm]
      rfl
    · exact (failFold_frame _ _ _).1
    · exact (failFold_frame _ _ _).2.1
    · exact (failFold_frame _ _ _).2.2.1
    · exact (failFold_frame _ _ _).2.2.2.1
    · exact (failFold_frame _ _ _).2.2.2.2.1
    · exact (failFold_frame _ _ _).2.2.2.2.2.1
    · exact (failFold_frame _ _ _).2.2.2.2.2.2
  · rw [if_neg hcl]
    refine ⟨?_, ?_, ?_, ?_, ?_, ?_, ?_, ?_, ?_⟩
    · intro k m hm
      rw [failFold_lookup]
      show (mapLookup s.pending k).map _ = _
      rw [hm]
      rfl
    · intro k hm
      rw [failFold_lookup]
      show (mapLookup s.pending k).map _ = _
      rw [hm]
      rfl
    · exact (failFold_frame _ _ _).1
    · exact (failFold_frame _ _ _).2.1
    · exact (failFold_frame _ _ _).2.2.1
    · exact (failFold_frame _ _ _).2.2.2.1
    · exact (failFold_frame _ _ _).2.2.2.2.1
    · exact (failFold_frame _ _ _).2.2.2.2.2.1
    · exact (failFold_frame _ _ _).2.2.2.2.2.2

/-- C5 witness: a 500-type failure on the one-signature batch `[A]` leaves
`A` present with only `nextAttemptAtMs` pushed to `max(10, 1025) = 1025`,
and all aggregate state unchanged. -/
theorem C5_batch_failure_frame_witness :
    stA.inFlight = false ∧ stA.pending.length ≠ 0 ∧ (20 : Nat) < 1000000 ∧
    (selectReadyBatch cfgB1 stA.pending stA.pendingOrder stA.scanIdx 20).1 ≠ [] ∧
    fetchEnhancedBatch
      (selectReadyBatch cfgB1 stA.pending stA.pendingOrder stA.scanIdx 20).1 netErr500 =
      Except.error ⟨some 500, "HTTP 500"⟩ ∧
    ((∀ k m, mapLookup stA.pending k = some m →
      mapLookup (batcherTick cfgB1 stA 1000000 20 25 netErr500).pending k =
        some (if k ∈ (selectReadyBatch cfgB1 stA.pending stA.pendingOrder stA.scanIdx 20).1
          then bumpNext (25 + 1000) m else m)) ∧
    (∀ k, mapLookup stA.pending k = none →
      mapLookup (batcherTick cfgB1 stA 1000000 20 25 netErr500).pending k = none) ∧
    (batcherTick cfgB1 stA 1000000 20 25 netErr500).droppedMissing = stA.droppedMissing ∧
    (batcherTick cfgB1 stA 1000000 20 25 netErr500).fpStats = stA.fpStats ∧
    (batcherTick cfgB1 stA 1000000 20 25 netErr500).programStats = stA.programStats ∧
    (batcherTick cfgB1 stA 1000000 20 25 netErr500).log = stA.log ∧
    (batcherTick cfgB1 stA 1000000 20 25 netErr500).processed = stA.processed ∧
    (batcherTick cfgB1 stA 1000000 20 25 netErr500).ingested = stA.ingested ∧
    (batcherTick cfgB1 stA 1000000 20 25 netErr500).evicted = stA.evicted) :=
  ⟨by decide, by decide, by decide, by decide, rfl,
    C5_batch_failure_frame cfgB1 stA 1000000 20 25 netErr500 ⟨some 500, "HTTP 500"⟩
      (by decide) (by decide) (by decide) (by decide) rfl⟩

/-- C7 counterexample: two records with identical type, source and mint set
whose noise-filtered program sets differ — in the 33rd program only — get
the SAME fingerprint, because the payload is hashed over `programs[:32]`.
So "changing any one of those four inputs changes the fingerprint" fails on
the code. -/
theorem C7_beyond_cap_counterexample :
    programsInterestingOf enhC7A ≠ programsInterestingOf enhC7B ∧
    enhC7A.type.getD "" = enhC7B.type.getD "" ∧
    enhC7A.source.getD "" = enhC7B.source.getD "" ∧
    extractChangedMints enhC7A = extractChangedMints enhC7B ∧
    fingerprintOf enhC7A = fingerprintOf enhC7B := by
  refine ⟨by decide, rfl, rfl, by decide, ?_⟩
  unfold fingerprintOf
  exact congrArg sha256Hex (by decide)

/-- C7 (amended): the fingerprint is a deterministic function of the type
tag, the source tag, the first 32 noise-filtered programs and the first 32
changed mints: records agreeing on those (in particular records with fully
identical type, source, program set and mint set) get the same fingerprint.
The converse holds only up to the 32-element caps (and up to SHA-256
collisions): records differing solely beyond a cap share a fingerprint. -/
theorem C7_fingerprint_determinism_amended (e1 e2 : Enh)
    (ht : e1.type.getD "" = e2.type.getD "")
    (hs : e1.source.getD "" = e2.source.getD "")
    (hp : (programsInterestingOf e1).take 32 = (programsInterestingOf e2).take 32)
    (hm : (extractChangedMints e1).take 32 = (extractChangedMints e2).take 32) :
    fingerprintOf e1 = fingerprintOf e2 := by
  unfold fingerprintOf
  rw [ht, hs, hp, hm]

/-- C7 witness: two records differing only in the fee — not a fingerprint
input — have equal fingerprints. -/
theorem C7_fingerprint_determinism_amended_witness :
    fingerprintOf enhC7A = fingerprintOf enhC7Fee :=
  C7_fingerprint_determinism_amended enhC7A enhC7Fee rfl rfl (by decide) (by decide)

/-- C8: processing one successfully enriched record always appends exactly
one record (carrying this signature and its fingerprint) to the durable log
and increments `processed`; the two aggregate tables are updated only when
the record carries economic evidence (`bestStable > 0` or `tip > 0`): with
no evidence both tables are left completely unchanged, with evidence the
fingerprint row's `count` increases by exactly 1 and every noise-filtered
program's row `count` increases by exactly 1. -/
theorem C8_evidence_gated_aggregation (cfg : Config) (s : St) (sig : String)
    (meta : PendingEntry) (enh : Enh) (now2 : Nat)
    (hl : mapLookup s.pending sig = some meta) :
    (processSig cfg s sig (some enh) now2).processed = s.processed + 1 ∧
    (∃ rec : LogRecord, (processSig cfg s sig (some enh) now2).log = s.log ++ [rec] ∧
      rec.signature = sig ∧ rec.fingerprint = fingerprintOf enh) ∧
    (¬ hasEvidence enh →
      (processSig cfg s sig (some enh) now2).fpStats = s.fpStats ∧
      (processSig cfg s sig (some enh) now2).programStats = s.programStats) ∧
    (hasEvidence enh →
      (∃ fs : FpStat,
        mapLookup (processSig cfg s sig (some enh) now2).fpStats (fingerprintOf enh) =
          some fs ∧
        fs.count = (match mapLookup s.fpStats (fingerprintOf enh) with
          | some old => old.count
          | none => 0) + 1) ∧
      (∀ pid ∈ programsInterestingOf enh,
        ∃ ps : ProgStat,
          mapLookup (processSig cfg s sig (some enh) now2).programStats pid = some ps ∧
          ps.count = (match mapLookup s.programStats pid with
            | some old => old.count
            | none => 0) + 1)) := by
  rw [processSig_some_eq cfg s sig meta enh now2 hl]
  by_cases hev : hasEvidence enh
  · dsimp only [processEnh]
    rw [if_pos hev]
    refine ⟨rfl, ⟨_, rfl, rfl, rfl⟩, fun hc => absurd hev hc, fun _ => ⟨?_, ?_⟩⟩
    · exact bumpFingerprint_count _ _ _ _ _ _
    · intro pid hpid
      exact foldBump_mem _ _ _ pid (programsInterestingOf_nodup enh) hpid
  · dsimp only [processEnh]
    rw [if_neg hev]
    exact ⟨rfl, ⟨_, rfl, rfl, rfl⟩, fun _ => ⟨rfl, rfl⟩, fun hc => absurd hc hev⟩

/-- C8 witness: the record `enhA` (tip 777, stable +250) bumps both tables;
its processing appends one log record and increments `processed`; the
no-evidence half is instantiated by the implication being vacuous here. -/
theorem C8_evidence_gated_aggregation_witness :
    mapLookup stA.pending "A" = some entryA0 ∧
    ((processSig cfgB1 stA "A" (some enhA) 25).processed = stA.processed + 1 ∧
    (∃ rec : LogRecord, (processSig cfgB1 stA "A" (some enhA) 25).log = stA.log ++ [rec] ∧
      rec.signature = "A" ∧ rec.fingerprint = fingerprintOf enhA) ∧
    (¬ hasEvidence enhA →
      (processSig cfgB1 stA "A" (some enhA) 25).fpStats = stA.fpStats ∧
      (processSig cfgB1 stA "A" (some enhA) 25).programStats = stA.programStats) ∧
    (hasEvidence enhA →
      (∃ fs : FpStat,
        mapLookup (processSig cfgB1 stA "A" (some enhA) 25).fpStats (fingerprintOf enhA) =
          some fs ∧
        fs.count = (match mapLookup stA.fpStats (fingerprintOf enhA) with
          | some old => old.count
          | none => 0) + 1) ∧
      (∀ pid ∈ programsInterestingOf enhA,
        ∃ ps : ProgStat,
          mapLookup (processSig cfgB1 stA "A" (some enhA) 25).programStats pid = some ps ∧
          ps.count = (match mapLookup stA.programStats pid with
            | some old => old.count
            | none => 0) + 1))) :=
  ⟨by decide, C8_evidence_gated_aggregation cfgB1 stA "A" entryA0 enhA 25 (by decide)⟩

/-- C9 counterexample: `writeSummary` performs exactly one direct
`writeFileSync` of the serialized summary to the snapshot path — there is no
write-to-a-temporary-file-then-rename pattern, so the claimed atomic
replacement does not hold on the code. -/
theorem C9_no_temp_rename_counterexample :
    writeSummaryOps "summary.json" cfgB1 initSt "2026-01-01T00:00:00Z" =
      [FsOp.writeFile "summary.json" (summaryJson cfgB1 initSt "2026-01-01T00:00:00Z")] ∧
    ¬ atomicReplacePattern "summary.json"
      (writeSummaryOps "summary.json" cfgB1 initSt "2026-01-01T00:00:00Z") := by
  refine ⟨rfl, ?_⟩
  rintro ⟨tmp, content, _, heq⟩
  have hlen := congrArg List.length heq
  simp [writeSummaryOps] at hlen

/-- C9 (amended): every snapshot write is a single in-place write of the
complete serialized summary to the snapshot path; no temporary file is
written and no rename is performed, so the update is not atomic — a crash
mid-write can leave a truncated snapshot. -/
theorem C9_snapshot_single_write_amended (summaryFile : String) (cfg : Config)
    (s : St) (generatedAt : String) :
    writeSummaryOps summaryFile cfg s generatedAt =
      [FsOp.writeFile summaryFile (summaryJson cfg s generatedAt)] ∧
    (∀ op ∈ writeSummaryOps summaryFile cfg s generatedAt,
      ∀ src dst, op ≠ FsOp.renameFile src dst) := by
  refine ⟨rfl, ?_⟩
  intro op hop src dst
  have : op = FsOp.writeFile summaryFile (summaryJson cfg s generatedAt) := by
    simpa [writeSummaryOps] using hop
  rw [this]
  intro hcon
  exact FsOp.noConfusion hcon

/-- C10: de-duplication at intake consults only the currently-pending set,
so once a signature's entry has left the buffer a later `ingest` call with
the same signature is accepted again as a brand-new entry with
`attempts = 0` (whatever the durable log or the counters already record for
it), and a subsequent successful enrichment appends one more log record for
that same signature and increments `processed` again — the same signature
can be processed more than once in a single run. -/
theorem C10_reingest_and_reprocess (cfg : Config) (s : St) (sig : String)
    (hint : Option Nat) (src : Option String) (draw : ℚ)
    (now stopAtMs now2 now3 : Nat) (net : Nat → NetResult)
    (enhanced : List Enh) (enh : Enh)
    (h0 : (s.pending.map Prod.fst).Nodup)
    (h1 : sig ≠ "")
    (h2 : mapHas s.pending sig = false)
    (h3 : ¬(cfg.ingressSamplePct < 1 ∧ cfg.ingressSamplePct < draw))
    (h4 : ¬ cfg.maxPending ≤ s.pending.length)
    (h5 : s.inFlight = false)
    (h6 : now2 < stopAtMs)
    (h7 : (selectReadyBatch cfg (tryIngestSignature cfg s sig hint src draw now).pending
      (tryIngestSignature cfg s sig hint src draw now).pendingOrder
      (tryIngestSignature cfg s sig hint src draw now).scanIdx now2).1 = [sig])
    (h8 : fetchEnhancedBatch [sig] net = Except.ok enhanced)
    (h9 : mapLookup (indexBySig enhanced) sig = some enh) :
    mapLookup (tryIngestSignature cfg s sig hint src draw now).pending sig =
      some (newEntry cfg hint src now) ∧
    (newEntry cfg hint src now).attempts = 0 ∧
    (tryIngestSignature cfg s sig hint src draw now).ingested = s.ingested + 1 ∧
    (tryIngestSignature cfg s sig hint src draw now).log = s.log ∧
    (batcherTick cfg (tryIngestSignature cfg s sig hint src draw now)
      stopAtMs now2 now3 net).processed = s.processed + 1 ∧
    countSig (batcherTick cfg (tryIngestSignature cfg s sig hint src draw now)
      stopAtMs now2 now3 net).log sig = countSig s.log sig + 1 ∧
    mapLookup (batcherTick cfg (tryIngestSignature cfg s sig hint src draw now)
      stopAtMs now2 now3 net).pending sig = none := by
  have hacc := tryIngest_accept_below cfg s sig hint src draw now h1 h2 h3 h4
  have hA : mapLookup (tryIngestSignature cfg s sig hint src draw now).pending sig =
      some (newEntry cfg hint src now) := by
    unfold tryIngestSignature
    rw [if_neg h1, if_neg (by simp [h2]), if_neg h3]
    exact mapLookup_mapSet_self _ _ _
  have hIF1 : (tryIngestSignature cfg s sig hint src draw now).inFlight = false := by
    rw [hacc]
    exact h5
  have hne1 : (tryIngestSignature cfg s sig hint src draw now).pending.length ≠ 0 := by
    rw [hacc]
    simp
  have htick := batcherTick_single_success cfg (tryIngestSignature cfg s sig hint src draw now)
    stopAtMs now2 now3 net enhanced sig enh (newEntry cfg hint src now)
    hIF1 hne1 h6 h7 h8 h9 hA
  obtain ⟨hp1, ⟨rec, hp2, hp3⟩, hp4⟩ := processEnh_frame cfg
    { tryIngestSignature cfg s sig hint src draw now with
      scanIdx := (selectReadyBatch cfg
        (tryIngestSignature cfg s sig hint src draw now).pending
        (tryIngestSignature cfg s sig hint src draw now).pendingOrder
        (tryIngestSignature cfg s sig hint src draw now).scanIdx now2).2.1 }
    sig (newEntry cfg hint src now) enh now3
  have hnd1 : (((tryIngestSignature cfg s sig hint src draw now).pending).map Prod.fst).Nodup := by
    rw [hacc]
    show ((s.pending ++ [(sig, newEntry cfg hint src now)]).map Prod.fst).Nodup
    rw [List.map_append, List.nodup_append]
    refine ⟨h0, by simp, ?_⟩
    intro x hx hx2
    simp at hx2
    subst hx2
    exact not_mem_keys_of_has_false s.pending _ h2 hx
  refine ⟨hA, rfl, ?_, ?_, ?_, ?_, ?_⟩
  · rw [hacc]
  · rw [hacc]
  · rw [htick, hp1]
    rw [show (St.processed { tryIngestSignature cfg s sig hint src draw now with
      scanIdx := (selectReadyBatch cfg
        (tryIngestSignature cfg s sig hint src draw now).pending
        (tryIngestSignature cfg s sig hint src draw now).pendingOrder
        (tryIngestSignature cfg s sig hint src draw now).scanIdx now2).2.1 }) = s.processed
      from by rw [hacc]]
  · rw [htick, hp2]
    rw [show (St.log { tryIngestSignature cfg s sig hint src draw now with
      scanIdx := (selectReadyBatch cfg
        (tryIngestSignature cfg s sig hint src draw now).pending
        (tryIngestSignature cfg s sig hint src draw now).pendingOrder
        (tryIngestSignature cfg s sig hint src draw now).scanIdx now2).2.1 }) = s.log
      from by rw [hacc]]
    exact countSig_append_self _ _ _ hp3
  · rw [htick, hp4]
    exact mapLookup_mapDelete_self _ _ hnd1

/-- Witness for C10 at concrete inputs: `stAfterA` already holds one durable
log record for signature "A" (it was ingested and successfully processed in
an earlier tick, so it is no longer pending); re-ingesting "A" is accepted
as a brand-new entry with `attempts = 0`, and the next successful tick
logs "A" a second time (count goes from 1 to 2) and increments `processed`
again. -/
theorem C10_reingest_and_reprocess_witness :
    countSig stAfterA.log "A" = 1 ∧
    (mapLookup (tryIngestSignature cfgB1 stAfterA "A" none none 0 2000).pending "A" =
      some (newEntry cfgB1 none none 2000) ∧
    (newEntry cfgB1 none none 2000).attempts = 0 ∧
    (tryIngestSignature cfgB1 stAfterA "A" none none 0 2000).ingested = stAfterA.ingested + 1 ∧
    (tryIngestSignature cfgB1 stAfterA "A" none none 0 2000).log = stAfterA.log ∧
    (batcherTick cfgB1 (tryIngestSignature cfgB1 stAfterA "A" none none 0 2000)
      1000000 2010 2015 netOkA).processed = stAfterA.processed + 1 ∧
    countSig (batcherTick cfgB1 (tryIngestSignature cfgB1 stAfterA "A" none none 0 2000)
      1000000 2010 2015 netOkA).log "A" = countSig stAfterA.log "A" + 1 ∧
    mapLookup (batcherTick cfgB1 (tryIngestSignature cfgB1 stAfterA "A" none none 0 2000)
      1000000 2010 2015 netOkA).pending "A" = none) :=
  ⟨by decide,
   C10_reingest_and_reprocess cfgB1 stAfterA "A" none none 0 2000 1000000 2010 2015 netOkA
     [enhA] enhA (by decide) (by decide) (by decide) (by decide) (by decide) (by decide)
     (by decide) (by decide) (by rfl) (by rfl)⟩

end Yogurt
